import Mathlib

/-!
Verification development for the lua_beetle transactional ledger kernel.

The repository ships the kernel as server-side scripts that are exercised by
the Python test suites; the kernel logic itself (create_account,
create_transfer, linked batches, get_account_transfers, get_account_balances)
is specified in the design document.  Every definition below that models a
kernel operation is therefore modelled from the spec (sections 3, 4 and 6),
cross-checked against the behaviour asserted by the test suites.

Machine integers are modelled as `Nat` with explicit `< 2^128` overflow
checks where the spec checks 128-bit overflow.  Fallible operations return a
numeric result code together with the (possibly unchanged) store.
-/

/-- Upper bound of the unsigned 128-bit range. -/
def U128 : Nat := 2 ^ 128

namespace Code

/-- Modelled from the spec: result codes (section 6 taxonomy; codes the spec
leaves unnumbered get fresh distinct values outside the named set). -/
def OK : Nat := 0
def LINKED_EVENT_FAILED : Nat := 1
def LINKED_EVENT_CHAIN_OPEN : Nat := 2
def ID_MUST_NOT_BE_ZERO : Nat := 3
def LEDGER_MUST_NOT_BE_ZERO : Nat := 4
def CODE_MUST_NOT_BE_ZERO : Nat := 5
def CONSTRAINT_FLAGS_CONFLICT : Nat := 6
def AMOUNT_MUST_NOT_BE_ZERO : Nat := 7
def PENDING_ID_MUST_BE_ZERO : Nat := 8
def PENDING_ID_MUST_NOT_BE_ZERO : Nat := 9
def PENDING_TRANSFER_NOT_PENDING : Nat := 10
def PENDING_TRANSFER_HAS_DIFFERENT_DEBIT : Nat := 11
def PENDING_TRANSFER_HAS_DIFFERENT_CREDIT : Nat := 12
def PENDING_TRANSFER_HAS_DIFFERENT_LEDGER : Nat := 13
def EXCEEDS_PENDING_TRANSFER_AMOUNT : Nat := 14
def VOID_AMOUNT_MISMATCH : Nat := 15
def OVERFLOWS_DEBITS : Nat := 16
def OVERFLOWS_CREDITS : Nat := 17
def FLAGS_ARE_MUTUALLY_EXCLUSIVE : Nat := 18
def DEBIT_ID_MUST_NOT_BE_ZERO : Nat := 19
def CREDIT_ID_MUST_NOT_BE_ZERO : Nat := 20
def EXISTS : Nat := 21
def EXISTS_WITH_DIFFERENT_FLAGS : Nat := 29
def EXISTS_WITH_DIFFERENT_CONTENT : Nat := 30
def PENDING_TRANSFER_NOT_FOUND : Nat := 34
def PENDING_TRANSFER_ALREADY_POSTED : Nat := 35
def PENDING_TRANSFER_ALREADY_VOIDED : Nat := 36
def DEBIT_ACCOUNT_NOT_FOUND : Nat := 38
def CREDIT_ACCOUNT_NOT_FOUND : Nat := 39
def ACCOUNTS_MUST_BE_DIFFERENT : Nat := 40
def EXCEEDS_CREDITS : Nat := 42
def EXCEEDS_DEBITS : Nat := 43
def LEDGER_MUST_MATCH : Nat := 52

end Code

/-- Modelled from the spec: the Account record (section 3), binary reserved
bytes omitted, balances and ids as `Nat` values below `2^128`. -/
structure Account where
  id : Nat
  debits_pending : Nat
  debits_posted : Nat
  credits_pending : Nat
  credits_posted : Nat
  user_data_128 : Nat
  user_data_64 : Nat
  user_data_32 : Nat
  ledger : Nat
  code : Nat
  flags : Nat
  timestamp : Nat
deriving DecidableEq

/-- Modelled from the spec: the Transfer record (section 3). -/
structure Transfer where
  id : Nat
  debit_account_id : Nat
  credit_account_id : Nat
  amount : Nat
  pending_id : Nat
  user_data_128 : Nat
  user_data_64 : Nat
  user_data_32 : Nat
  timeout : Nat
  ledger : Nat
  code : Nat
  flags : Nat
  timestamp : Nat
deriving DecidableEq

/-- Modelled from the spec: the AccountFilter record (section 3). -/
structure AccountFilter where
  account_id : Nat
  user_data_128 : Nat
  user_data_64 : Nat
  user_data_32 : Nat
  code : Nat
  timestamp_min : Nat
  timestamp_max : Nat
  limit : Nat
  flags : Nat
deriving DecidableEq

/-- The four running balances of an account. -/
structure Quad where
  dp : Nat
  dpo : Nat
  cp : Nat
  cpo : Nat
deriving DecidableEq

def Quad.zero : Quad := ⟨0, 0, 0, 0⟩

def Account.quad (a : Account) : Quad :=
  ⟨a.debits_pending, a.debits_posted, a.credits_pending, a.credits_posted⟩

/-- Modelled from the spec: a BalanceSnapshot (section 3): a timestamp
followed by the four balances recorded right after a committed transfer. -/
structure Snapshot where
  timestamp : Nat
  balances : Quad
deriving DecidableEq

/-- Which side of a transfer an account is on. -/
inductive Side where
  | debit
  | credit
deriving DecidableEq

/-- Modelled from the spec: a transfer-index entry
`(timestamp, transfer_id, side)` (section 4.2 key schema). -/
structure IndexEntry where
  timestamp : Nat
  transfer_id : Nat
  side : Side
deriving DecidableEq

/-- Modelled from the spec: the persistent state behind the key-value store
adapter (section 4.2): accounts and transfers keyed by id (kept in commit
order), per-account transfer-index and balance-history logs, the resolved
markers for pendings (`some true` = posted, `some false` = voided), and the
timestamp-oracle counter. -/
structure Store where
  accounts : List Account
  transfers : List Transfer
  txIndex : Nat → List IndexEntry
  history : Nat → List Snapshot
  resolved : Nat → Option Bool
  nextTs : Nat

def Store.empty : Store :=
  { accounts := []
    transfers := []
    txIndex := fun _ => []
    history := fun _ => []
    resolved := fun _ => none
    nextTs := 1 }

/-- Point lookup of an account blob by id (spec section 4.4.4). -/
def lookup_account (i : Nat) (s : Store) : Option Account :=
  s.accounts.find? (fun a => a.id = i)

/-- Point lookup of a transfer blob by id (spec section 4.4.4). -/
def lookup_transfer (i : Nat) (s : Store) : Option Transfer :=
  s.transfers.find? (fun t => t.id = i)

/-- Replace the stored account with the same id (append when absent). -/
def putAccount (a : Account) : List Account → List Account
  | [] => [a]
  | b :: bs => if b.id = a.id then a :: bs else b :: putAccount a bs

/- Account flags (spec section 3). -/
def Account.linked (a : Account) : Bool := a.flags.testBit 0
def Account.debitsMustNotExceedCredits (a : Account) : Bool := a.flags.testBit 1
def Account.creditsMustNotExceedDebits (a : Account) : Bool := a.flags.testBit 2
def Account.hasHistory (a : Account) : Bool := a.flags.testBit 3

/- Transfer flags (spec section 3). -/
def Transfer.linked (t : Transfer) : Bool := t.flags.testBit 0
def Transfer.pending (t : Transfer) : Bool := t.flags.testBit 1
def Transfer.postPending (t : Transfer) : Bool := t.flags.testBit 2
def Transfer.voidPending (t : Transfer) : Bool := t.flags.testBit 3
def Transfer.balancingDebit (t : Transfer) : Bool := t.flags.testBit 4
def Transfer.balancingCredit (t : Transfer) : Bool := t.flags.testBit 5

/- AccountFilter flags (spec section 3). -/
def AccountFilter.wantDebits (f : AccountFilter) : Bool := f.flags.testBit 0
def AccountFilter.wantCredits (f : AccountFilter) : Bool := f.flags.testBit 1
def AccountFilter.reversed (f : AccountFilter) : Bool := f.flags.testBit 2

/-- Every non-timestamp field of the two account records matches exactly
(spec section 4.4.1 idempotence check). -/
def accountMatches (a b : Account) : Bool :=
  a.id = b.id && a.debits_pending = b.debits_pending &&
  a.debits_posted = b.debits_posted && a.credits_pending = b.credits_pending &&
  a.credits_posted = b.credits_posted && a.user_data_128 = b.user_data_128 &&
  a.user_data_64 = b.user_data_64 && a.user_data_32 = b.user_data_32 &&
  a.ledger = b.ledger && a.code = b.code && a.flags = b.flags

/-- Every non-timestamp field of the two transfer records matches exactly
(spec section 4.4.2 step 3). -/
def transferMatches (t u : Transfer) : Bool :=
  t.id = u.id && t.debit_account_id = u.debit_account_id &&
  t.credit_account_id = u.credit_account_id && t.amount = u.amount &&
  t.pending_id = u.pending_id && t.user_data_128 = u.user_data_128 &&
  t.user_data_64 = u.user_data_64 && t.user_data_32 = u.user_data_32 &&
  t.timeout = u.timeout && t.ledger = u.ledger && t.code = u.code &&
  t.flags = u.flags

/-- A freshly stored account: the four balances set to zero and the
oracle timestamp assigned (spec section 4.4.1). -/
def Account.initAt (a : Account) (ts : Nat) : Account :=
  { a with debits_pending := 0, debits_posted := 0,
           credits_pending := 0, credits_posted := 0, timestamp := ts }

/-- Modelled from the spec: `create_account` (section 4.4.1).  Validates the
record, distinguishes duplicate submissions, zeroes the balances, stamps a
fresh timestamp and stores the account. -/
def create_account (a : Account) (s : Store) : Nat × Store :=
  if a.id = 0 then (Code.ID_MUST_NOT_BE_ZERO, s)
  else if a.ledger = 0 then (Code.LEDGER_MUST_NOT_BE_ZERO, s)
  else if a.code = 0 then (Code.CODE_MUST_NOT_BE_ZERO, s)
  else if a.debitsMustNotExceedCredits && a.creditsMustNotExceedDebits then
    (Code.CONSTRAINT_FLAGS_CONFLICT, s)
  else
    match lookup_account a.id s with
    | some b =>
        if accountMatches a b then (Code.EXISTS, s)
        else if a.flags ≠ b.flags then (Code.EXISTS_WITH_DIFFERENT_FLAGS, s)
        else (Code.EXISTS_WITH_DIFFERENT_CONTENT, s)
    | none =>
        (Code.OK, { s with accounts := s.accounts ++ [a.initAt s.nextTs],
                           nextTs := s.nextTs + 1 })

/-- Commit step of `create_transfer` (spec section 4.4.2 step 6): store the
transfer, put both updated account blobs, append the two transfer-index
entries, and append a balance snapshot for each account with `HISTORY`.
`da` and `ca` are the post-mutation debit and credit accounts; the stored
transfer already carries its fresh timestamp. -/
def commitTransfer (stored : Transfer) (da ca : Account) (s : Store) : Store :=
  { s with
    accounts := putAccount ca (putAccount da s.accounts)
    transfers := s.transfers ++ [stored]
    txIndex := fun i =>
      if i = stored.debit_account_id then
        s.txIndex i ++ [⟨stored.timestamp, stored.id, Side.debit⟩]
      else if i = stored.credit_account_id then
        s.txIndex i ++ [⟨stored.timestamp, stored.id, Side.credit⟩]
      else s.txIndex i
    history := fun i =>
      if i = stored.debit_account_id then
        (if da.hasHistory then s.history i ++ [⟨stored.timestamp, da.quad⟩]
         else s.history i)
      else if i = stored.credit_account_id then
        (if ca.hasHistory then s.history i ++ [⟨stored.timestamp, ca.quad⟩]
         else s.history i)
      else s.history i
    nextTs := s.nextTs + 1 }

/-- Modelled from the spec: the `BALANCING_DEBIT` clamp bound (section
4.4.2, single-phase), computed on the credit account with truncated
subtraction. -/
def balancingDebitBound (ca : Account) : Nat :=
  ca.credits_posted + ca.credits_pending - (ca.debits_posted + ca.debits_pending)

/-- Modelled from the spec: the `BALANCING_CREDIT` clamp bound (section
4.4.2, single-phase), symmetric on the debit account. -/
def balancingCreditBound (da : Account) : Nat :=
  da.debits_posted + da.debits_pending - (da.credits_posted + da.credits_pending)

/-- Single-phase application (spec section 4.4.2): clamp under balancing
flags, check 128-bit overflow, check the accounts' balance constraints, then
post the amount on both accounts. -/
def applySinglePhase (t : Transfer) (da ca : Account) (s : Store) :
    Except Nat Store :=
  let amt :=
    if t.balancingDebit then min t.amount (balancingDebitBound ca)
    else if t.balancingCredit then min t.amount (balancingCreditBound da)
    else t.amount
  if U128 ≤ da.debits_posted + amt then .error Code.OVERFLOWS_DEBITS
  else if U128 ≤ ca.credits_posted + amt then .error Code.OVERFLOWS_CREDITS
  else if da.debitsMustNotExceedCredits &&
          da.credits_posted < da.debits_posted + amt + da.debits_pending then
    .error Code.EXCEEDS_CREDITS
  else if ca.creditsMustNotExceedDebits &&
          ca.debits_posted < ca.credits_posted + amt + ca.credits_pending then
    .error Code.EXCEEDS_DEBITS
  else
    let da' := { da with debits_posted := da.debits_posted + amt }
    let ca' := { ca with credits_posted := ca.credits_posted + amt }
    let stored := { t with amount := amt, timestamp := s.nextTs }
    .ok (commitTransfer stored da' ca' s)

/-- Pending application (spec section 4.4.2): reserve the amount on both
pending columns; the constraint check uses posted plus pending totals. -/
def applyPending (t : Transfer) (da ca : Account) (s : Store) :
    Except Nat Store :=
  if t.pending_id ≠ 0 then .error Code.PENDING_ID_MUST_BE_ZERO
  else if U128 ≤ da.debits_pending + t.amount then .error Code.OVERFLOWS_DEBITS
  else if U128 ≤ ca.credits_pending + t.amount then .error Code.OVERFLOWS_CREDITS
  else if da.debitsMustNotExceedCredits &&
          da.credits_posted < da.debits_posted + (da.debits_pending + t.amount) then
    .error Code.EXCEEDS_CREDITS
  else if ca.creditsMustNotExceedDebits &&
          ca.debits_posted < ca.credits_posted + (ca.credits_pending + t.amount) then
    .error Code.EXCEEDS_DEBITS
  else
    let da' := { da with debits_pending := da.debits_pending + t.amount }
    let ca' := { ca with credits_pending := ca.credits_pending + t.amount }
    let stored := { t with timestamp := s.nextTs }
    .ok (commitTransfer stored da' ca' s)

/-- Shared referencing checks for post-pending and void-pending (spec
section 4.4.2): the pending must exist, be a pending transfer, reference the
same accounts and ledger, and not yet be resolved. -/
def checkPendingRef (t : Transfer) (s : Store) : Except Nat Transfer :=
  if t.pending_id = 0 then .error Code.PENDING_ID_MUST_NOT_BE_ZERO
  else
    match lookup_transfer t.pending_id s with
    | none => .error Code.PENDING_TRANSFER_NOT_FOUND
    | some p =>
        if ¬ p.pending then .error Code.PENDING_TRANSFER_NOT_PENDING
        else if p.debit_account_id ≠ t.debit_account_id then
          .error Code.PENDING_TRANSFER_HAS_DIFFERENT_DEBIT
        else if p.credit_account_id ≠ t.credit_account_id then
          .error Code.PENDING_TRANSFER_HAS_DIFFERENT_CREDIT
        else if p.ledger ≠ t.ledger then
          .error Code.PENDING_TRANSFER_HAS_DIFFERENT_LEDGER
        else
          match s.resolved t.pending_id with
          | some true => .error Code.PENDING_TRANSFER_ALREADY_POSTED
          | some false => .error Code.PENDING_TRANSFER_ALREADY_VOIDED
          | none => .ok p

/-- Post-pending application (spec section 4.4.2): amount zero posts the
full pending amount, a smaller amount posts partially; the pending columns
release the whole pending amount and the posted columns gain the posted
amount; the stored transfer records the posted amount and the pending is
marked resolved as posted. -/
def applyPostPending (t : Transfer) (da ca : Account) (s : Store) :
    Except Nat Store :=
  match checkPendingRef t s with
  | .error e => .error e
  | .ok p =>
      if p.amount < t.amount then .error Code.EXCEEDS_PENDING_TRANSFER_AMOUNT
      else
        let postAmt := if t.amount = 0 then p.amount else t.amount
        if U128 ≤ da.debits_posted + postAmt then .error Code.OVERFLOWS_DEBITS
        else if U128 ≤ ca.credits_posted + postAmt then
          .error Code.OVERFLOWS_CREDITS
        else
          let da' := { da with debits_pending := da.debits_pending - p.amount,
                               debits_posted := da.debits_posted + postAmt }
          let ca' := { ca with credits_pending := ca.credits_pending - p.amount,
                               credits_posted := ca.credits_posted + postAmt }
          let stored := { t with amount := postAmt, timestamp := s.nextTs }
          let s' := commitTransfer stored da' ca' s
          .ok { s' with resolved := fun i =>
                  if i = t.pending_id then some true else s.resolved i }

/-- Void-pending application (spec section 4.4.2): the amount must be zero
or equal the pending amount; both pending columns release the pending
amount, posted columns are untouched, and the pending is marked resolved as
voided. -/
def applyVoidPending (t : Transfer) (da ca : Account) (s : Store) :
    Except Nat Store :=
  match checkPendingRef t s with
  | .error e => .error e
  | .ok p =>
      if t.amount ≠ 0 ∧ t.amount ≠ p.amount then
        .error Code.VOID_AMOUNT_MISMATCH
      else
        let da' := { da with debits_pending := da.debits_pending - p.amount }
        let ca' := { ca with credits_pending := ca.credits_pending - p.amount }
        let stored := { t with timestamp := s.nextTs }
        let s' := commitTransfer stored da' ca' s
        .ok { s' with resolved := fun i =>
                if i = t.pending_id then some false else s.resolved i }

/-- At most one of `PENDING`, `POST_PENDING`, `VOID_PENDING` may be set
(spec section 4.4.2 step 2). -/
def transferFlagsExclusive (t : Transfer) : Bool :=
  (if t.pending then 1 else 0) + (if t.postPending then 1 else 0) +
    (if t.voidPending then 1 else 0) ≤ 1

/-- Modelled from the spec: `create_transfer` validation and dispatch
(section 4.4.2), as an `Except`: an error leaves the store untouched. -/
def create_transferE (t : Transfer) (s : Store) : Except Nat Store :=
  if t.id = 0 then .error Code.ID_MUST_NOT_BE_ZERO
  else if t.debit_account_id = 0 then .error Code.DEBIT_ID_MUST_NOT_BE_ZERO
  else if t.credit_account_id = 0 then .error Code.CREDIT_ID_MUST_NOT_BE_ZERO
  else if t.debit_account_id = t.credit_account_id then
    .error Code.ACCOUNTS_MUST_BE_DIFFERENT
  else if t.ledger = 0 then .error Code.LEDGER_MUST_NOT_BE_ZERO
  else if t.code = 0 then .error Code.CODE_MUST_NOT_BE_ZERO
  else if t.amount = 0 && !(t.postPending || t.voidPending ||
          t.balancingDebit || t.balancingCredit) then
    .error Code.AMOUNT_MUST_NOT_BE_ZERO
  else if ¬ transferFlagsExclusive t then .error Code.FLAGS_ARE_MUTUALLY_EXCLUSIVE
  else
    match lookup_transfer t.id s with
    | some u =>
        if transferMatches t u then .error Code.EXISTS
        else if t.flags ≠ u.flags then .error Code.EXISTS_WITH_DIFFERENT_FLAGS
        else .error Code.EXISTS_WITH_DIFFERENT_CONTENT
    | none =>
        match lookup_account t.debit_account_id s with
        | none => .error Code.DEBIT_ACCOUNT_NOT_FOUND
        | some da =>
            match lookup_account t.credit_account_id s with
            | none => .error Code.CREDIT_ACCOUNT_NOT_FOUND
            | some ca =>
                if da.ledger ≠ t.ledger ∨ ca.ledger ≠ t.ledger then
                  .error Code.LEDGER_MUST_MATCH
                else if t.pending then applyPending t da ca s
                else if t.postPending then applyPostPending t da ca s
                else if t.voidPending then applyVoidPending t da ca s
                else applySinglePhase t da ca s

/-- Modelled from the spec: `create_transfer` (section 4.4.2) returning the
result code and the store; every error leaves the store unchanged. -/
def create_transfer (t : Transfer) (s : Store) : Nat × Store :=
  match create_transferE t s with
  | .ok s' => (Code.OK, s')
  | .error e => (e, s)

/-- Run the records of one chain speculatively (spec section 4.4.3): stop at
the first failure, reporting its index and native code, or return the store
after the whole chain. -/
def chainApply (step : α → Store → Nat × Store) :
    List α → Store → Except (Nat × Nat) Store
  | [], s => .ok s
  | x :: xs, s =>
      if (step x s).1 = Code.OK then
        match chainApply step xs (step x s).2 with
        | .ok s' => .ok s'
        | .error (i, c) => .error (i + 1, c)
      else .error (0, (step x s).1)

/-- Result vector and final store of one chain (spec section 4.4.3): on
success every record reports `OK` and the speculative writes are flushed; on
failure the staging set is discarded (the pre-chain store is returned), the
offender reports its native code and every other chain member reports
`LINKED_EVENT_FAILED`. -/
def runChain (step : α → Store → Nat × Store) (xs : List α) (s : Store) :
    List Nat × Store :=
  match chainApply step xs s with
  | .ok s' => (xs.map (fun _ => Code.OK), s')
  | .error (i, c) =>
      ((List.range xs.length).map
        (fun j => if j = i then c else Code.LINKED_EVENT_FAILED), s)

/-- Chain decomposition of a batch (spec section 4.4.3): a chain begins at a
record with `LINKED` set and runs through every record whose predecessor had
`LINKED` set, ending at the first record with `LINKED` clear. -/
def splitChains (isLinked : α → Bool) : List α → List (List α)
  | [] => []
  | x :: xs =>
      if isLinked x then
        match splitChains isLinked xs with
        | [] => [[x]]
        | c :: cs => (x :: c) :: cs
      else [x] :: splitChains isLinked xs

/-- A chain whose last record still has `LINKED` set never terminated. -/
def chainOpen (isLinked : α → Bool) (c : List α) : Bool :=
  match c.getLast? with
  | some x => isLinked x
  | none => false

/-- Modelled from the spec: the linked-batch driver shared by
`create_linked_accounts` and `create_linked_transfers` (sections 4.4.3 and
6): each chain commits or rolls back as a unit, an unterminated chain fails
whole with `LINKED_EVENT_CHAIN_OPEN`, and the result codes come back in
input order. -/
def runBatch (isLinked : α → Bool) (step : α → Store → Nat × Store)
    (xs : List α) (s : Store) : List Nat × Store :=
  (splitChains isLinked xs).foldl
    (fun acc c =>
      if chainOpen isLinked c then
        (acc.1 ++ c.map (fun _ => Code.LINKED_EVENT_CHAIN_OPEN), acc.2)
      else
        let r := runChain step c acc.2
        (acc.1 ++ r.1, r.2))
    ([], s)

/-- Modelled from the spec: `create_linked_accounts` (section 6). -/
def create_linked_accounts (xs : List Account) (s : Store) :
    List Nat × Store :=
  runBatch Account.linked create_account xs s

/-- Modelled from the spec: `create_linked_transfers` (section 6). -/
def create_linked_transfers (xs : List Transfer) (s : Store) :
    List Nat × Store :=
  runBatch Transfer.linked create_transfer xs s

/-- Default result cap when the filter's `limit` is zero (spec section 4.6:
implementation-defined, large but bounded). -/
def defaultLimit : Nat := 8190

def AccountFilter.effLimit (f : AccountFilter) : Nat :=
  if f.limit = 0 then defaultLimit else f.limit

/-- Side selection of the filter (spec section 4.6): `DEBITS` and `CREDITS`
select sides to include; if neither is set both are included. -/
def sideSelected (f : AccountFilter) (sd : Side) : Bool :=
  if !f.wantDebits && !f.wantCredits then true
  else
    match sd with
    | Side.debit => f.wantDebits
    | Side.credit => f.wantCredits

/-- Timestamp window of the filter (spec section 4.6): inclusive bounds,
zero meaning unbounded in that direction. -/
def tsSelected (f : AccountFilter) (ts : Nat) : Bool :=
  (f.timestamp_min = 0 || f.timestamp_min ≤ ts) &&
  (f.timestamp_max = 0 || ts ≤ f.timestamp_max)

/-- Modelled from the spec: `get_account_transfers` (section 4.6): scan the
account's index log, filter side and timestamp window, honour `REVERSED`,
truncate to the limit and fetch each full transfer record. -/
def get_account_transfers (f : AccountFilter) (s : Store) : List Transfer :=
  let entries := (s.txIndex f.account_id).filter
    (fun e => sideSelected f e.side && tsSelected f e.timestamp)
  let ordered := if f.reversed then entries.reverse else entries
  (ordered.take f.effLimit).filterMap (fun e => lookup_transfer e.transfer_id s)

/-- Modelled from the spec: `get_account_balances` (section 4.6): empty when
the account is absent or lacks `HISTORY`; otherwise scan the account's
balance-history log under the same timestamp window, `REVERSED` and limit
rules (side flags do not apply). -/
def get_account_balances (f : AccountFilter) (s : Store) : List Snapshot :=
  match lookup_account f.account_id s with
  | none => []
  | some a =>
      if ¬ a.hasHistory then []
      else
        let entries := (s.history f.account_id).filter
          (fun b => tsSelected f b.timestamp)
        let ordered := if f.reversed then entries.reverse else entries
        ordered.take f.effLimit

/-- Little-endian byte list of width `w` for the value `n`. -/
def leBytes (w n : Nat) : List Nat :=
  (List.range w).map (fun i => n / 256 ^ i % 256)

/-- Wire encoding of a transfer record (spec section 3: 128 bytes,
little-endian fields at fixed offsets). -/
def encodeTransfer (t : Transfer) : List Nat :=
  leBytes 16 t.id ++ leBytes 16 t.debit_account_id ++
  leBytes 16 t.credit_account_id ++ leBytes 16 t.amount ++
  leBytes 16 t.pending_id ++ leBytes 16 t.user_data_128 ++
  leBytes 8 t.user_data_64 ++ leBytes 4 t.user_data_32 ++
  leBytes 4 t.timeout ++ leBytes 4 t.ledger ++ leBytes 2 t.code ++
  leBytes 2 t.flags ++ leBytes 8 t.timestamp

/-- Wire encoding of a balance snapshot: the 8-byte timestamp followed by
the four 16-byte balances (spec section 3 field list; the spec's declared
total of 64 bytes does not match this field list, and the two test suites
assert different snapshot sizes, so no length is claimed for it here). -/
def encodeSnapshot (b : Snapshot) : List Nat :=
  leBytes 8 b.timestamp ++ leBytes 16 b.balances.dp ++
  leBytes 16 b.balances.dpo ++ leBytes 16 b.balances.cp ++
  leBytes 16 b.balances.cpo

/-- Concatenated result blob of `get_account_transfers` (spec section 4.6:
128 bytes per transfer). -/
def get_account_transfers_blob (f : AccountFilter) (s : Store) : List Nat :=
  (get_account_transfers f s).flatMap encodeTransfer

/-- Concatenated result blob of `get_account_balances` (spec section 4.6:
64 bytes per snapshot). -/
def get_account_balances_blob (f : AccountFilter) (s : Store) : List Nat :=
  (get_account_balances f s).flatMap encodeSnapshot

/-- The account takes part in the transfer (spec section 3: one index entry
per affecting transfer, on the debit or the credit side). -/
def involves (accId : Nat) (t : Transfer) : Bool :=
  accId = t.debit_account_id || accId = t.credit_account_id

/-- Amount of the stored pending transfer a post/void references, looked up
among the committed transfers. -/
def pendingAmount (ts : List Transfer) (i : Nat) : Nat :=
  match ts.find? (fun t => t.id = i) with
  | some p => p.amount
  | none => 0

/-- Balance delta one committed transfer applies to one account's four
balances (spec section 4.4.2 effects; `pa` resolves a referenced pending's
amount).  Accounts on neither side are unaffected. -/
def applyDelta (pa : Nat → Nat) (accId : Nat) (t : Transfer) (q : Quad) :
    Quad :=
  if t.pending then
    if accId = t.debit_account_id then { q with dp := q.dp + t.amount }
    else if accId = t.credit_account_id then { q with cp := q.cp + t.amount }
    else q
  else if t.postPending then
    if accId = t.debit_account_id then
      { q with dp := q.dp - pa t.pending_id, dpo := q.dpo + t.amount }
    else if accId = t.credit_account_id then
      { q with cp := q.cp - pa t.pending_id, cpo := q.cpo + t.amount }
    else q
  else if t.voidPending then
    if accId = t.debit_account_id then { q with dp := q.dp - pa t.pending_id }
    else if accId = t.credit_account_id then
      { q with cp := q.cp - pa t.pending_id }
    else q
  else
    if accId = t.debit_account_id then { q with dpo := q.dpo + t.amount }
    else if accId = t.credit_account_id then { q with cpo := q.cpo + t.amount }
    else q

/-- Replay of an account's four balances over a list of committed
transfers, starting from a given quad. -/
def replayQuad (pa : Nat → Nat) (accId : Nat) (ts : List Transfer)
    (q : Quad) : Quad :=
  ts.foldl (fun q t => applyDelta pa accId t q) q

/-- Replay of an account's balance history over a list of committed
transfers: one snapshot per transfer the account takes part in, carrying the
transfer's timestamp and the cumulative balances right after it. -/
def histReplay (pa : Nat → Nat) (accId : Nat) :
    List Transfer → Quad → List Snapshot
  | [], _ => []
  | t :: ts, q =>
      if involves accId t then
        ⟨t.timestamp, applyDelta pa accId t q⟩ ::
          histReplay pa accId ts (applyDelta pa accId t q)
      else histReplay pa accId ts q

/-- One externally dispatched operation of the mutating surface (spec
section 6). -/
inductive Op where
  | ca : Account → Op
  | ct : Transfer → Op
  | las : List Account → Op
  | lts : List Transfer → Op

/-- Apply one operation, discarding its result codes. -/
def applyOp (op : Op) (s : Store) : Store :=
  match op with
  | Op.ca a => (create_account a s).2
  | Op.ct t => (create_transfer t s).2
  | Op.las xs => (create_linked_accounts xs s).2
  | Op.lts xs => (create_linked_transfers xs s).2

/-- Apply a sequence of operations to a store. -/
def applyOps (ops : List Op) (s : Store) : Store :=
  ops.foldl (fun s op => applyOp op s) s

/-- A store state is reachable when some operation sequence produces it from
the empty store. -/
def Reachable (s : Store) : Prop :=
  ∃ ops : List Op, s = applyOps ops Store.empty

/-! ### Basic lemmas about the store primitives -/

/-- Dispatch expression of `create_transferE` after all structural checks. -/
def dispatchTransfer (t : Transfer) (da ca : Account) (s : Store) :
    Except Nat Store :=
  if t.pending then applyPending t da ca s
  else if t.postPending then applyPostPending t da ca s
  else if t.voidPending then applyVoidPending t da ca s
  else applySinglePhase t da ca s

/-- Speculative store after a whole prefix of chain records succeeds. -/
def chainPrefix (step : α → Store → Nat × Store) :
    List α → Store → Option Store
  | [], s => some s
  | x :: xs, s =>
      if (step x s).1 = Code.OK then chainPrefix step xs (step x s).2
      else none

/-- A chain list in which every record but the last carries `LINKED` and the
last one does not. -/
def closedChain (isLinked : α → Bool) : List α → Bool
  | [] => false
  | [x] => !isLinked x
  | x :: y :: xs => isLinked x && closedChain isLinked (y :: xs)

/-- All record timestamps currently stored. -/
def allTs (s : Store) : List Nat :=
  s.accounts.map (fun a => a.timestamp) ++
    s.transfers.map (fun t => t.timestamp)

/-- The index entry a committed transfer contributes to one account's
transfer-index log. -/
def entryFor (i : Nat) (t : Transfer) : IndexEntry :=
  ⟨t.timestamp, t.id,
   if i = t.debit_account_id then Side.debit else Side.credit⟩

/-- Signed posted balance of one account on one ledger. -/
def balOf (L : Nat) (a : Account) : Int :=
  if a.ledger = L then (a.debits_posted : Int) - a.credits_posted else 0

/-- Sum of posted debits minus posted credits over one ledger. -/
def ledgerDiff (L : Nat) (s : Store) : Int :=
  (s.accounts.map (balOf L)).sum

/-- Sum of `debits_posted` over the accounts of one ledger. -/
def ledgerDebits (L : Nat) (s : Store) : Nat :=
  ((s.accounts.filter (fun a => a.ledger = L)).map
    (fun a => a.debits_posted)).sum

/-- Sum of `credits_posted` over the accounts of one ledger. -/
def ledgerCredits (L : Nat) (s : Store) : Nat :=
  ((s.accounts.filter (fun a => a.ledger = L)).map
    (fun a => a.credits_posted)).sum

/-- Replace an account's four balances. -/
def Account.withQuad (a : Account) (q : Quad) : Account :=
  { a with debits_pending := q.dp, debits_posted := q.dpo,
           credits_pending := q.cp, credits_posted := q.cpo }

/-- Structural invariant every reachable store satisfies: unique record ids,
bounded and distinct timestamps, transfers sorted by timestamp, per-ledger
conservation of posted balances, the transfer index and balance history in
sync with the committed transfers, post/void records referencing stored
pendings, and stored records passing the creation-time validations. -/
structure StoreInv (s : Store) : Prop where
  accIds : (s.accounts.map (fun a => a.id)).Nodup
  txIds : (s.transfers.map (fun t => t.id)).Nodup
  accTs : ∀ a ∈ s.accounts, a.timestamp < s.nextTs
  txTs : ∀ t ∈ s.transfers, t.timestamp < s.nextTs
  tsNodup : (allTs s).Nodup
  txSorted : (s.transfers.map (fun t => t.timestamp)).Pairwise (· < ·)
  conserving : ∀ L, ledgerDiff L s = 0
  indexSpec : ∀ i, s.txIndex i =
    (s.transfers.filter (fun t => involves i t)).map (entryFor i)
  pendingClosed : ∀ u ∈ s.transfers,
    (u.postPending = true ∨ u.voidPending = true) →
    ∃ p ∈ s.transfers, p.id = u.pending_id
  quadSpec : ∀ i a, lookup_account i s = some a →
    a.quad = replayQuad (pendingAmount s.transfers) i s.transfers Quad.zero
  histSpec : ∀ i, s.history i =
    (match lookup_account i s with
     | some a =>
        if a.hasHistory then
          histReplay (pendingAmount s.transfers) i s.transfers Quad.zero
        else []
     | none => [])
  accValid : ∀ a ∈ s.accounts, a.id ≠ 0 ∧ a.ledger ≠ 0 ∧ a.code ≠ 0 ∧
    (a.debitsMustNotExceedCredits && a.creditsMustNotExceedDebits) = false
  txValid : ∀ u ∈ s.transfers, u.id ≠ 0 ∧ u.debit_account_id ≠ 0 ∧
    u.credit_account_id ≠ 0 ∧
    u.debit_account_id ≠ u.credit_account_id ∧ u.ledger ≠ 0 ∧ u.code ≠ 0 ∧
    (u.amount = 0 && !(u.postPending || u.voidPending ||
      u.balancingDebit || u.balancingCredit)) = false ∧
    transferFlagsExclusive u = true
  txAccs : ∀ u ∈ s.transfers,
    (lookup_account u.debit_account_id s).isSome ∧
    (lookup_account u.credit_account_id s).isSome

def wAccount (i L fl : Nat) : Account :=
  { id := i, debits_pending := 0, debits_posted := 0, credits_pending := 0,
    credits_posted := 0, user_data_128 := 0, user_data_64 := 0,
    user_data_32 := 0, ledger := L, code := 1, flags := fl, timestamp := 0 }

def wTransfer (i d c amt pid L fl : Nat) : Transfer :=
  { id := i, debit_account_id := d, credit_account_id := c, amount := amt,
    pending_id := pid, user_data_128 := 0, user_data_64 := 0,
    user_data_32 := 0, timeout := 0, ledger := L, code := 1, flags := fl,
    timestamp := 0 }

/-- Two plain accounts `1` and `2` on ledger `1`. -/
def wBase : Store :=
  (create_account (wAccount 2 1 0)
    (create_account (wAccount 1 1 0) Store.empty).2).2

def wDa : Account := (wAccount 1 1 0).initAt 1

def wCa : Account := (wAccount 2 1 0).initAt 2

def wT1 : Transfer := wTransfer 10 1 2 100 0 1 1

def wT2 : Transfer := wTransfer 0 1 2 100 0 1 0

def wA1 : Account := wAccount 3 1 1

def wA2 : Account := wAccount 0 1 0

def wST : Transfer := wTransfer 20 1 2 500 0 1 0

def cT : Transfer := wTransfer 40 1 2 100 0 1 16

def wPT : Transfer := wTransfer 30 1 2 600 0 1 2

def wQT : Transfer := wTransfer 31 1 2 600 30 1 4

def wVT : Transfer := wTransfer 32 1 2 600 30 1 8

def wOpsAcc : List Op := [Op.ca (wAccount 1 1 0), Op.ca (wAccount 2 1 0)]

def wOps : List Op := wOpsAcc ++ [Op.ct wST]

def wS5 : Store := applyOps wOps Store.empty

def wS7 : Store := applyOps
  [Op.ca (wAccount 7 1 2), Op.ca (wAccount 8 1 0), Op.ca (wAccount 9 1 4)]
  Store.empty

/-- Timestamp extension between two store states: the oracle never goes
back and every record timestamp of the later state is either an old one or
at least the earlier state's oracle value. -/
def tsExtend (u v : Store) : Prop :=
  u.nextTs ≤ v.nextTs ∧ ∀ z ∈ allTs v, z ∈ allTs u ∨ u.nextTs ≤ z

def wF9 : AccountFilter :=
  { account_id := 1, user_data_128 := 0, user_data_64 := 0,
    user_data_32 := 0, code := 0, timestamp_min := 0, timestamp_max := 0,
    limit := 10, flags := 1 }

def wOps9 : List Op := wOpsAcc ++ [Op.ct wST, Op.ct (wTransfer 21 2 1 50 0 1 0)]

def wF10 : AccountFilter :=
  { account_id := 5, user_data_128 := 0, user_data_64 := 0,
    user_data_32 := 0, code := 0, timestamp_min := 0, timestamp_max := 0,
    limit := 0, flags := 0 }

def wOps10 : List Op :=
  [Op.ca (wAccount 5 1 8), Op.ca (wAccount 6 1 0),
   Op.ct (wTransfer 60 5 6 40 0 1 0)]

def wA10 : Account :=
  { (wAccount 5 1 8).initAt 1 with debits_posted := 40 }

/-! ### Theorems -/

theorem find?_putAccount_self (a : Account) (l : List Account) :
    (putAccount a l).find? (fun b => b.id = a.id) = some a := by
  induction l with
  | nil => simp [putAccount]
  | cons b bs ih =>
      by_cases h : b.id = a.id
      · simp [putAccount, h, List.find?]
      · simp [putAccount, h, List.find?, ih]

theorem find?_putAccount_other (a : Account) (l : List Account) (j : Nat)
    (hj : j ≠ a.id) :
    (putAccount a l).find? (fun b => b.id = j) =
      l.find? (fun b => b.id = j) := by
  induction l with
  | nil => simp [putAccount, List.find?, Ne.symm hj]
  | cons b bs ih =>
      by_cases h : b.id = a.id
      · have hbj : ¬ b.id = j := by rw [h]; exact Ne.symm hj
        simp [putAccount, h, Ne.symm hj, hbj]
      · by_cases hb : b.id = j
        · simp [putAccount, h, hb, hj]
        · simp [putAccount, h, hb, ih]

theorem find?_append_of_none {α : Type} {p : α → Bool} {l : List α}
    (h : l.find? p = none) (x : α) :
    (l ++ [x]).find? p = if p x then some x else none := by
  rw [List.find?_append, h]
  rcases hpx : p x with _ | _ <;> simp [List.find?, hpx]

theorem find?_append_of_some {α : Type} {p : α → Bool} {l : List α}
    {u : α} (h : l.find? p = some u) (x : α) :
    (l ++ [x]).find? p = some u := by
  rw [List.find?_append, h]
  rfl

/-! ### Inversion lemmas for the kernel operations -/

theorem create_transferE_shape {t : Transfer} {s : Store}
    {r : Except Nat Store} (h : create_transferE t s = r) :
    (∃ e, r = Except.error e ∧ 0 < e) ∨
    (t.id ≠ 0 ∧ t.debit_account_id ≠ t.credit_account_id ∧
     lookup_transfer t.id s = none ∧
     ∃ da ca,
       lookup_account t.debit_account_id s = some da ∧
       lookup_account t.credit_account_id s = some ca ∧
       da.ledger = t.ledger ∧ ca.ledger = t.ledger ∧
       r = dispatchTransfer t da ca s) := by
  unfold create_transferE at h
  by_cases h1 : t.id = 0
  · rw [if_pos h1] at h; exact Or.inl ⟨_, h.symm, by decide⟩
  rw [if_neg h1] at h
  by_cases h2 : t.debit_account_id = 0
  · rw [if_pos h2] at h; exact Or.inl ⟨_, h.symm, by decide⟩
  rw [if_neg h2] at h
  by_cases h3 : t.credit_account_id = 0
  · rw [if_pos h3] at h; exact Or.inl ⟨_, h.symm, by decide⟩
  rw [if_neg h3] at h
  by_cases h4 : t.debit_account_id = t.credit_account_id
  · rw [if_pos h4] at h; exact Or.inl ⟨_, h.symm, by decide⟩
  rw [if_neg h4] at h
  by_cases h5 : t.ledger = 0
  · rw [if_pos h5] at h; exact Or.inl ⟨_, h.symm, by decide⟩
  rw [if_neg h5] at h
  by_cases h6 : t.code = 0
  · rw [if_pos h6] at h; exact Or.inl ⟨_, h.symm, by decide⟩
  rw [if_neg h6] at h
  by_cases h7 : (t.amount = 0 && !(t.postPending || t.voidPending ||
      t.balancingDebit || t.balancingCredit)) = true
  · rw [if_pos h7] at h; exact Or.inl ⟨_, h.symm, by decide⟩
  rw [if_neg h7] at h
  by_cases h8 : ¬ transferFlagsExclusive t = true
  · rw [if_pos h8] at h; exact Or.inl ⟨_, h.symm, by decide⟩
  rw [if_neg h8] at h
  split at h
  · split at h
    · exact Or.inl ⟨_, h.symm, by decide⟩
    split at h
    · exact Or.inl ⟨_, h.symm, by decide⟩
    · exact Or.inl ⟨_, h.symm, by decide⟩
  rename_i hu
  split at h
  · exact Or.inl ⟨_, h.symm, by decide⟩
  rename_i da hda
  split at h
  · exact Or.inl ⟨_, h.symm, by decide⟩
  rename_i ca hca
  by_cases hledg : da.ledger ≠ t.ledger ∨ ca.ledger ≠ t.ledger
  · rw [if_pos hledg] at h; exact Or.inl ⟨_, h.symm, by decide⟩
  rw [if_neg hledg] at h
  push_neg at hledg
  exact Or.inr ⟨h1, h4, hu, da, ca, hda, hca, hledg.1, hledg.2, h.symm⟩
theorem applySinglePhase_ok {t : Transfer} {da ca : Account} {s s' : Store}
    (h : applySinglePhase t da ca s = .ok s') :
    ∃ amt,
      (t.balancingDebit = false → t.balancingCredit = false → amt = t.amount) ∧
      da.debits_posted + amt < U128 ∧ ca.credits_posted + amt < U128 ∧
      s' = commitTransfer { t with amount := amt, timestamp := s.nextTs }
        { da with debits_posted := da.debits_posted + amt }
        { ca with credits_posted := ca.credits_posted + amt } s := by
  unfold applySinglePhase at h
  simp only [] at h
  rcases hbd : t.balancingDebit with _ | _ <;> rw [hbd] at h
  case' true => rotate_right
  case' false =>
    rcases hbc : t.balancingCredit with _ | _ <;> rw [hbc] at h
  all_goals simp only [Bool.false_eq_true, if_false, if_true] at h
  all_goals
    split at h
    · exact Except.noConfusion h
  all_goals
    split at h
    · exact Except.noConfusion h
  all_goals
    split at h
    · exact Except.noConfusion h
  all_goals
    split at h
    · exact Except.noConfusion h
  all_goals rename_i o1 o2 c1 c2
  all_goals injection h with h'
  all_goals refine ⟨_, ?_, by omega, by omega, h'.symm⟩
  · exact fun _ _ => rfl
  · exact fun _ hc => absurd hc (by decide)
  · exact fun hd _ => absurd hd (by decide)
theorem applyPending_ok {t : Transfer} {da ca : Account} {s s' : Store}
    (h : applyPending t da ca s = .ok s') :
    t.pending_id = 0 ∧
    da.debits_pending + t.amount < U128 ∧
    ca.credits_pending + t.amount < U128 ∧
    s' = commitTransfer { t with timestamp := s.nextTs }
      { da with debits_pending := da.debits_pending + t.amount }
      { ca with credits_pending := ca.credits_pending + t.amount } s := by
  unfold applyPending at h
  split at h
  · exact Except.noConfusion h
  split at h
  · exact Except.noConfusion h
  split at h
  · exact Except.noConfusion h
  split at h
  · exact Except.noConfusion h
  split at h
  · exact Except.noConfusion h
  rename_i hp o1 o2 c1 c2
  injection h with h'
  refine ⟨by omega, by omega, by omega, h'.symm⟩

theorem checkPendingRef_ok {t : Transfer} {s : Store} {p : Transfer}
    (h : checkPendingRef t s = .ok p) :
    t.pending_id ≠ 0 ∧ lookup_transfer t.pending_id s = some p ∧
    p.pending = true ∧ p.debit_account_id = t.debit_account_id ∧
    p.credit_account_id = t.credit_account_id ∧ p.ledger = t.ledger ∧
    s.resolved t.pending_id = none := by
  unfold checkPendingRef at h
  split at h
  · exact Except.noConfusion h
  rename_i hz
  split at h
  · exact Except.noConfusion h
  rename_i q hq
  split at h
  · exact Except.noConfusion h
  rename_i hpend
  split at h
  · exact Except.noConfusion h
  rename_i hd
  split at h
  · exact Except.noConfusion h
  rename_i hc
  split at h
  · exact Except.noConfusion h
  rename_i hl
  split at h
  · exact Except.noConfusion h
  · exact Except.noConfusion h
  rename_i hres
  injection h with h'
  subst h'
  refine ⟨hz, hq, by simpa using hpend, by omega, by omega, by omega, hres⟩

theorem applyPostPending_ok {t : Transfer} {da ca : Account} {s s' : Store}
    (h : applyPostPending t da ca s = .ok s') :
    ∃ p postAmt, checkPendingRef t s = .ok p ∧ t.amount ≤ p.amount ∧
      postAmt = (if t.amount = 0 then p.amount else t.amount) ∧
      da.debits_posted + postAmt < U128 ∧
      ca.credits_posted + postAmt < U128 ∧
      s' = { commitTransfer { t with amount := postAmt, timestamp := s.nextTs }
        { da with debits_pending := da.debits_pending - p.amount,
                  debits_posted := da.debits_posted + postAmt }
        { ca with credits_pending := ca.credits_pending - p.amount,
                  credits_posted := ca.credits_posted + postAmt } s with
        resolved := fun i =>
          if i = t.pending_id then some true else s.resolved i } := by
  unfold applyPostPending at h
  split at h
  · exact Except.noConfusion h
  rename_i p hp
  split at h
  · exact Except.noConfusion h
  rename_i hle
  split at h
  all_goals rename_i hz
  all_goals simp only [] at h
  all_goals
    split at h
    · exact Except.noConfusion h
  all_goals
    split at h
    · exact Except.noConfusion h
  all_goals rename_i o1 o2
  all_goals injection h with h'
  · exact ⟨p, p.amount, hp, by omega, (if_pos hz).symm, by omega, by omega,
      h'.symm⟩
  · exact ⟨p, t.amount, hp, by omega, (if_neg hz).symm, by omega, by omega,
      h'.symm⟩

theorem applyVoidPending_ok {t : Transfer} {da ca : Account} {s s' : Store}
    (h : applyVoidPending t da ca s = .ok s') :
    ∃ p, checkPendingRef t s = .ok p ∧
      (t.amount = 0 ∨ t.amount = p.amount) ∧
      s' = { commitTransfer { t with timestamp := s.nextTs }
        { da with debits_pending := da.debits_pending - p.amount }
        { ca with credits_pending := ca.credits_pending - p.amount } s with
        resolved := fun i =>
          if i = t.pending_id then some false else s.resolved i } := by
  unfold applyVoidPending at h
  split at h
  · exact Except.noConfusion h
  rename_i p hp
  split at h
  · exact Except.noConfusion h
  rename_i hamt
  injection h with h'
  refine ⟨p, hp, by tauto, h'.symm⟩

theorem create_account_ok {a : Account} {s s' : Store}
    (h : create_account a s = (Code.OK, s')) :
    a.id ≠ 0 ∧ a.ledger ≠ 0 ∧ a.code ≠ 0 ∧
    ¬ (a.debitsMustNotExceedCredits && a.creditsMustNotExceedDebits) = true ∧
    lookup_account a.id s = none ∧
    s' = { s with accounts := s.accounts ++ [a.initAt s.nextTs],
                  nextTs := s.nextTs + 1 } := by
  unfold create_account at h
  split at h
  · injection h with h1 h2; exact absurd h1 (by decide)
  split at h
  · injection h with h1 h2; exact absurd h1 (by decide)
  split at h
  · injection h with h1 h2; exact absurd h1 (by decide)
  split at h
  · injection h with h1 h2; exact absurd h1 (by decide)
  rename_i h1 h2 h3 h4
  split at h
  · split at h
    · injection h with h1 h2; exact absurd h1 (by decide)
    split at h
    · injection h with h1 h2; exact absurd h1 (by decide)
    · injection h with h1 h2; exact absurd h1 (by decide)
  rename_i hl
  have h' := congrArg Prod.snd h
  exact ⟨h1, h2, h3, h4, hl, h'.symm⟩
theorem checkPendingRef_error_pos {t : Transfer} {s : Store} {e : Nat}
    (h : checkPendingRef t s = .error e) : 0 < e := by
  unfold checkPendingRef at h
  split at h
  · injection h with h'; exact h' ▸ (by decide)
  split at h
  · injection h with h'; exact h' ▸ (by decide)
  split at h
  · injection h with h'; exact h' ▸ (by decide)
  split at h
  · injection h with h'; exact h' ▸ (by decide)
  split at h
  · injection h with h'; exact h' ▸ (by decide)
  split at h
  · injection h with h'; exact h' ▸ (by decide)
  split at h
  · injection h with h'; exact h' ▸ (by decide)
  · injection h with h'; exact h' ▸ (by decide)
  · exact Except.noConfusion h

theorem applySinglePhase_error_pos {t : Transfer} {da ca : Account}
    {s : Store} {e : Nat} (h : applySinglePhase t da ca s = .error e) :
    0 < e := by
  unfold applySinglePhase at h
  simp only [] at h
  rcases hbd : t.balancingDebit with _ | _ <;> rw [hbd] at h
  case' true => rotate_right
  case' false =>
    rcases hbc : t.balancingCredit with _ | _ <;> rw [hbc] at h
  all_goals simp only [Bool.false_eq_true, if_false, if_true] at h
  all_goals
    split at h
    · injection h with h'; exact h' ▸ (by decide)
  all_goals
    split at h
    · injection h with h'; exact h' ▸ (by decide)
  all_goals
    split at h
    · injection h with h'; exact h' ▸ (by decide)
  all_goals
    split at h
    · injection h with h'; exact h' ▸ (by decide)
  all_goals exact Except.noConfusion h

theorem applyPending_error_pos {t : Transfer} {da ca : Account}
    {s : Store} {e : Nat} (h : applyPending t da ca s = .error e) : 0 < e := by
  unfold applyPending at h
  split at h
  · injection h with h'; exact h' ▸ (by decide)
  split at h
  · injection h with h'; exact h' ▸ (by decide)
  split at h
  · injection h with h'; exact h' ▸ (by decide)
  split at h
  · injection h with h'; exact h' ▸ (by decide)
  split at h
  · injection h with h'; exact h' ▸ (by decide)
  · exact Except.noConfusion h

theorem applyPostPending_error_pos {t : Transfer} {da ca : Account}
    {s : Store} {e : Nat} (h : applyPostPending t da ca s = .error e) :
    0 < e := by
  unfold applyPostPending at h
  split at h
  · rename_i e' he
    injection h with h'
    exact h' ▸ checkPendingRef_error_pos he
  split at h
  · injection h with h'; exact h' ▸ (by decide)
  split at h
  all_goals simp only [] at h
  all_goals
    split at h
    · injection h with h'; exact h' ▸ (by decide)
  all_goals
    split at h
    · injection h with h'; exact h' ▸ (by decide)
  all_goals exact Except.noConfusion h

theorem applyVoidPending_error_pos {t : Transfer} {da ca : Account}
    {s : Store} {e : Nat} (h : applyVoidPending t da ca s = .error e) :
    0 < e := by
  unfold applyVoidPending at h
  split at h
  · rename_i e' he
    injection h with h'
    exact h' ▸ checkPendingRef_error_pos he
  split at h
  · injection h with h'; exact h' ▸ (by decide)
  · exact Except.noConfusion h

theorem create_transferE_error_pos {t : Transfer} {s : Store} {e : Nat}
    (h : create_transferE t s = .error e) : 0 < e := by
  rcases create_transferE_shape h with ⟨e', he, hpos⟩ | h'
  · injection he with he'; omega
  · obtain ⟨_, _, _, da, ca, _, _, _, _, hr⟩ := h'
    unfold dispatchTransfer at hr
    rcases hp : t.pending with _ | _ <;> rw [hp] at hr
    case' true => exact applyPending_error_pos hr.symm
    rcases hpp : t.postPending with _ | _ <;> rw [hpp] at hr
    case' true => exact applyPostPending_error_pos hr.symm
    rcases hv : t.voidPending with _ | _ <;> rw [hv] at hr
    case' true => exact applyVoidPending_error_pos hr.symm
    simp only [Bool.false_eq_true, if_false] at hr
    exact applySinglePhase_error_pos hr.symm

theorem create_transfer_ok_iff {t : Transfer} {s s' : Store} :
    create_transfer t s = (Code.OK, s') ↔ create_transferE t s = .ok s' := by
  unfold create_transfer
  constructor
  · intro h
    split at h
    · injection h with h1 h2; subst h2; assumption
    · rename_i e he
      injection h with h1 h2
      have h0 := create_transferE_error_pos he
      rw [h1] at h0
      exact absurd h0 (by decide)
  · intro h; rw [h]

/-! ### Lookup behaviour across a commit -/

theorem lookup_account_some_id {i : Nat} {s : Store} {a : Account}
    (h : lookup_account i s = some a) : a.id = i := by
  have := List.find?_some h
  simpa using this

theorem lookup_transfer_some_id {i : Nat} {s : Store} {u : Transfer}
    (h : lookup_transfer i s = some u) : u.id = i := by
  have := List.find?_some h
  simpa using this

theorem lookup_account_commitTransfer_credit (stored : Transfer)
    (da ca : Account) (s : Store) :
    lookup_account ca.id (commitTransfer stored da ca s) = some ca := by
  unfold lookup_account commitTransfer
  exact find?_putAccount_self ca (putAccount da s.accounts)

theorem lookup_account_commitTransfer_debit (stored : Transfer)
    (da ca : Account) (s : Store) (hne : da.id ≠ ca.id) :
    lookup_account da.id (commitTransfer stored da ca s) = some da := by
  unfold lookup_account commitTransfer
  rw [find?_putAccount_other ca (putAccount da s.accounts) da.id hne]
  exact find?_putAccount_self da s.accounts

theorem lookup_account_commitTransfer_other (stored : Transfer)
    (da ca : Account) (s : Store) {i : Nat} (h1 : i ≠ da.id)
    (h2 : i ≠ ca.id) :
    lookup_account i (commitTransfer stored da ca s) =
      lookup_account i s := by
  unfold lookup_account commitTransfer
  rw [find?_putAccount_other ca (putAccount da s.accounts) i h2]
  exact find?_putAccount_other da s.accounts i h1

theorem lookup_transfer_commitTransfer_new (stored : Transfer)
    (da ca : Account) {s : Store}
    (h : lookup_transfer stored.id s = none) :
    lookup_transfer stored.id (commitTransfer stored da ca s) =
      some stored := by
  unfold lookup_transfer at *
  unfold commitTransfer
  rw [find?_append_of_none h]
  simp

theorem lookup_transfer_commitTransfer_old {i : Nat} (stored : Transfer)
    (da ca : Account) {s : Store} {u : Transfer}
    (h : lookup_transfer i s = some u) :
    lookup_transfer i (commitTransfer stored da ca s) = some u := by
  unfold lookup_transfer at *
  unfold commitTransfer
  exact find?_append_of_some h stored

/-! ### Success decompositions of `create_transfer` by kind -/

theorem create_transfer_ok_single {t : Transfer} {s s' : Store}
    (hok : create_transfer t s = (Code.OK, s'))
    (hp : t.pending = false) (hpp : t.postPending = false)
    (hv : t.voidPending = false) :
    ∃ da ca amt,
      lookup_account t.debit_account_id s = some da ∧
      lookup_account t.credit_account_id s = some ca ∧
      lookup_transfer t.id s = none ∧
      t.debit_account_id ≠ t.credit_account_id ∧
      da.ledger = t.ledger ∧ ca.ledger = t.ledger ∧
      (t.balancingDebit = false → t.balancingCredit = false →
        amt = t.amount) ∧
      s' = commitTransfer { t with amount := amt, timestamp := s.nextTs }
        { da with debits_posted := da.debits_posted + amt }
        { ca with credits_posted := ca.credits_posted + amt } s := by
  have hE := create_transfer_ok_iff.mp hok
  rcases create_transferE_shape hE with ⟨e, he, _⟩ | h'
  · exact Except.noConfusion he
  obtain ⟨_, hneq, hnone, da, ca, hda, hca, hld, hlc, hr⟩ := h'
  unfold dispatchTransfer at hr
  rw [hp, hpp, hv] at hr
  simp only [Bool.false_eq_true, if_false] at hr
  obtain ⟨amt, hamt, _, _, hcommit⟩ := applySinglePhase_ok hr.symm
  exact ⟨da, ca, amt, hda, hca, hnone, hneq, hld, hlc, hamt, hcommit⟩

theorem create_transfer_ok_pending {t : Transfer} {s s' : Store}
    (hok : create_transfer t s = (Code.OK, s'))
    (hp : t.pending = true) :
    ∃ da ca,
      lookup_account t.debit_account_id s = some da ∧
      lookup_account t.credit_account_id s = some ca ∧
      lookup_transfer t.id s = none ∧
      t.debit_account_id ≠ t.credit_account_id ∧
      da.ledger = t.ledger ∧ ca.ledger = t.ledger ∧
      s' = commitTransfer { t with timestamp := s.nextTs }
        { da with debits_pending := da.debits_pending + t.amount }
        { ca with credits_pending := ca.credits_pending + t.amount } s := by
  have hE := create_transfer_ok_iff.mp hok
  rcases create_transferE_shape hE with ⟨e, he, _⟩ | h'
  · exact Except.noConfusion he
  obtain ⟨_, hneq, hnone, da, ca, hda, hca, hld, hlc, hr⟩ := h'
  unfold dispatchTransfer at hr
  rw [hp] at hr
  simp only [if_true] at hr
  obtain ⟨_, _, _, hcommit⟩ := applyPending_ok hr.symm
  exact ⟨da, ca, hda, hca, hnone, hneq, hld, hlc, hcommit⟩

theorem create_transfer_ok_post {t : Transfer} {s s' : Store}
    (hok : create_transfer t s = (Code.OK, s'))
    (hp : t.pending = false) (hpp : t.postPending = true) :
    ∃ da ca p postAmt,
      lookup_account t.debit_account_id s = some da ∧
      lookup_account t.credit_account_id s = some ca ∧
      lookup_transfer t.id s = none ∧
      t.debit_account_id ≠ t.credit_account_id ∧
      lookup_transfer t.pending_id s = some p ∧
      p.pending = true ∧
      p.debit_account_id = t.debit_account_id ∧
      p.credit_account_id = t.credit_account_id ∧
      s.resolved t.pending_id = none ∧
      t.amount ≤ p.amount ∧
      postAmt = (if t.amount = 0 then p.amount else t.amount) ∧
      s' = { commitTransfer { t with amount := postAmt, timestamp := s.nextTs }
        { da with debits_pending := da.debits_pending - p.amount,
                  debits_posted := da.debits_posted + postAmt }
        { ca with credits_pending := ca.credits_pending - p.amount,
                  credits_posted := ca.credits_posted + postAmt } s with
        resolved := fun i =>
          if i = t.pending_id then some true else s.resolved i } := by
  have hE := create_transfer_ok_iff.mp hok
  rcases create_transferE_shape hE with ⟨e, he, _⟩ | h'
  · exact Except.noConfusion he
  obtain ⟨_, hneq, hnone, da, ca, hda, hca, hld, hlc, hr⟩ := h'
  unfold dispatchTransfer at hr
  rw [hp, hpp] at hr
  simp only [Bool.false_eq_true, if_false, if_true] at hr
  obtain ⟨p, postAmt, href, hle, hpostAmt, _, _, hcommit⟩ :=
    applyPostPending_ok hr.symm
  obtain ⟨_, hlookp, hpend, hpd, hpc, _, hres⟩ := checkPendingRef_ok href
  exact ⟨da, ca, p, postAmt, hda, hca, hnone, hneq, hlookp, hpend, hpd, hpc,
    hres, hle, hpostAmt, hcommit⟩

theorem create_transfer_ok_void {t : Transfer} {s s' : Store}
    (hok : create_transfer t s = (Code.OK, s'))
    (hp : t.pending = false) (hpp : t.postPending = false)
    (hv : t.voidPending = true) :
    ∃ da ca p,
      lookup_account t.debit_account_id s = some da ∧
      lookup_account t.credit_account_id s = some ca ∧
      lookup_transfer t.id s = none ∧
      t.debit_account_id ≠ t.credit_account_id ∧
      lookup_transfer t.pending_id s = some p ∧
      p.pending = true ∧
      p.debit_account_id = t.debit_account_id ∧
      p.credit_account_id = t.credit_account_id ∧
      s.resolved t.pending_id = none ∧
      (t.amount = 0 ∨ t.amount = p.amount) ∧
      s' = { commitTransfer { t with timestamp := s.nextTs }
        { da with debits_pending := da.debits_pending - p.amount }
        { ca with credits_pending := ca.credits_pending - p.amount } s with
        resolved := fun i =>
          if i = t.pending_id then some false else s.resolved i } := by
  have hE := create_transfer_ok_iff.mp hok
  rcases create_transferE_shape hE with ⟨e, he, _⟩ | h'
  · exact Except.noConfusion he
  obtain ⟨_, hneq, hnone, da, ca, hda, hca, hld, hlc, hr⟩ := h'
  unfold dispatchTransfer at hr
  rw [hp, hpp, hv] at hr
  simp only [Bool.false_eq_true, if_false, if_true] at hr
  obtain ⟨p, href, hamt, hcommit⟩ := applyVoidPending_ok hr.symm
  obtain ⟨_, hlookp, hpend, hpd, hpc, _, hres⟩ := checkPendingRef_ok href
  exact ⟨da, ca, p, hda, hca, hnone, hneq, hlookp, hpend, hpd, hpc, hres,
    hamt, hcommit⟩

theorem lookup_account_resolved_update (i : Nat) (s : Store)
    (r : Nat → Option Bool) :
    lookup_account i { s with resolved := r } = lookup_account i s := rfl

theorem lookup_transfer_resolved_update (i : Nat) (s : Store)
    (r : Nat → Option Bool) :
    lookup_transfer i { s with resolved := r } = lookup_transfer i s := rfl

theorem lookup_account_commitTransfer_debit' (stored : Transfer)
    (da ca : Account) (s : Store) {i : Nat} (hne : da.id ≠ ca.id)
    (hid : da.id = i) :
    lookup_account i (commitTransfer stored da ca s) = some da := by
  subst hid
  exact lookup_account_commitTransfer_debit stored da ca s hne

theorem lookup_account_commitTransfer_credit' (stored : Transfer)
    (da ca : Account) (s : Store) {i : Nat} (hid : ca.id = i) :
    lookup_account i (commitTransfer stored da ca s) = some ca := by
  subst hid
  exact lookup_account_commitTransfer_credit stored da ca s

theorem lookup_transfer_commitTransfer_new' (stored : Transfer)
    (da ca : Account) {s : Store} {i : Nat}
    (hid : stored.id = i) (h : lookup_transfer i s = none) :
    lookup_transfer i (commitTransfer stored da ca s) = some stored := by
  subst hid
  exact lookup_transfer_commitTransfer_new stored da ca h

/-! ### Chain execution lemmas -/

theorem splitChains_closed (isLinked : α → Bool) :
    ∀ xs : List α, closedChain isLinked xs = true →
      splitChains isLinked xs = [xs]
  | [] => by intro h; simp [closedChain] at h
  | [x] => by
      intro h
      simp only [closedChain, Bool.not_eq_eq_eq_not, Bool.not_true] at h
      simp [splitChains, h]
  | x :: y :: xs => by
      intro h
      simp only [closedChain, Bool.and_eq_true] at h
      have ih := splitChains_closed isLinked (y :: xs) h.2
      conv_lhs => rw [splitChains]
      rw [if_pos h.1, ih]

theorem chainOpen_closed (isLinked : α → Bool) :
    ∀ xs : List α, closedChain isLinked xs = true →
      chainOpen isLinked xs = false
  | [] => by intro h; simp [closedChain] at h
  | [x] => by
      intro h
      simp only [closedChain, Bool.not_eq_eq_eq_not, Bool.not_true] at h
      simp [chainOpen, h]
  | x :: y :: xs => by
      intro h
      simp only [closedChain, Bool.and_eq_true] at h
      have ih := chainOpen_closed isLinked (y :: xs) h.2
      simpa [chainOpen] using ih

theorem runBatch_closed (isLinked : α → Bool)
    (step : α → Store → Nat × Store) (xs : List α) (s : Store)
    (hcl : closedChain isLinked xs = true) :
    runBatch isLinked step xs s = runChain step xs s := by
  unfold runBatch
  rw [splitChains_closed isLinked xs hcl]
  simp [chainOpen_closed isLinked xs hcl]

theorem chainApply_fail (step : α → Store → Nat × Store) :
    ∀ (xs : List α) (i : Nat) (s si : Store) (hi : i < xs.length) (c : Nat),
      chainPrefix step (xs.take i) s = some si →
      (step (xs.get ⟨i, hi⟩) si).1 = c → c ≠ Code.OK →
      chainApply step xs s = .error (i, c)
  | [], i, s, si, hi, c => by simp at hi
  | x :: xs, 0, s, si, hi, c => by
      intro hpre hc hne
      have hsi : s = si := by
        simpa [chainPrefix] using hpre
      subst hsi
      have hc' : (step x s).1 = c := hc
      unfold chainApply
      rw [if_neg (by rw [hc']; exact hne)]
      rw [hc']
  | x :: xs, i + 1, s, si, hi, c => by
      intro hpre hc hne
      rw [List.take_succ_cons] at hpre
      unfold chainPrefix at hpre
      by_cases hok : (step x s).1 = Code.OK
      · rw [if_pos hok] at hpre
        have ih := chainApply_fail step xs i (step x s).2 si
          (by simpa using hi) c hpre hc hne
        unfold chainApply
        rw [if_pos hok, ih]
      · rw [if_neg hok] at hpre
        exact Option.noConfusion hpre

theorem runChain_fail (step : α → Store → Nat × Store) (xs : List α)
    (i : Nat) (s si : Store) (hi : i < xs.length) (c : Nat)
    (hpre : chainPrefix step (xs.take i) s = some si)
    (hc : (step (xs.get ⟨i, hi⟩) si).1 = c) (hne : c ≠ Code.OK) :
    runChain step xs s =
      ((List.range xs.length).map
        (fun j => if j = i then c else Code.LINKED_EVENT_FAILED), s) := by
  unfold runChain
  rw [chainApply_fail step xs i s si hi c hpre hc hne]

/-! ### The reachable-store invariant -/

theorem StoreInv_empty : StoreInv Store.empty := by
  constructor <;> intros <;> simp_all [Store.empty, allTs, ledgerDiff,
    lookup_account, lookup_transfer, Quad.zero]

/-! ### List lemmas about `putAccount`, sums and replays -/

theorem mem_putAccount (a : Account) (l : List Account) :
    ∀ x ∈ putAccount a l, x = a ∨ x ∈ l := by
  induction l with
  | nil =>
      intro x hx
      simp [putAccount] at hx
      exact Or.inl hx
  | cons b bs ih =>
      intro x hx
      unfold putAccount at hx
      by_cases hb : b.id = a.id
      · rw [if_pos hb] at hx
        rcases List.mem_cons.mp hx with hx | hx
        · exact Or.inl hx
        · exact Or.inr (List.mem_cons_of_mem b hx)
      · rw [if_neg hb] at hx
        rcases List.mem_cons.mp hx with hx | hx
        · exact Or.inr (hx ▸ List.mem_cons_self b bs)
        · rcases ih x hx with h | h
          · exact Or.inl h
          · exact Or.inr (List.mem_cons_of_mem b h)

theorem map_putAccount_eq {β : Type} (f : Account → β) (a b : Account) :
    ∀ l : List Account, l.find? (fun x => x.id = a.id) = some b →
      f a = f b → (putAccount a l).map f = l.map f
  | [], hfind, _ => by simp [List.find?] at hfind
  | c :: cs, hfind, hfab => by
      by_cases hc : c.id = a.id
      · rw [List.find?_cons_of_pos _ (by simpa using hc)] at hfind
        injection hfind with hcb
        subst hcb
        simp [putAccount, hc, hfab]
      · rw [List.find?_cons_of_neg _ (by simpa using hc)] at hfind
        simp [putAccount, hc, map_putAccount_eq f a b cs hfind hfab]

theorem sum_map_putAccount (g : Account → Int) (a b : Account) :
    ∀ l : List Account, l.find? (fun x => x.id = a.id) = some b →
      ((putAccount a l).map g).sum = (l.map g).sum + g a - g b
  | [], hfind => by simp [List.find?] at hfind
  | c :: cs, hfind => by
      by_cases hc : c.id = a.id
      · rw [List.find?_cons_of_pos _ (by simpa using hc)] at hfind
        injection hfind with hcb
        subst hcb
        simp [putAccount, hc]
        ring
      · rw [List.find?_cons_of_neg _ (by simpa using hc)] at hfind
        simp only [putAccount, hc, if_false, List.map_cons, List.sum_cons,
          sum_map_putAccount g a b cs hfind]
        ring

theorem lookup_account_mem {i : Nat} {s : Store} {a : Account}
    (h : lookup_account i s = some a) : a ∈ s.accounts :=
  List.mem_of_find?_eq_some h

theorem lookup_transfer_mem {i : Nat} {s : Store} {u : Transfer}
    (h : lookup_transfer i s = some u) : u ∈ s.transfers :=
  List.mem_of_find?_eq_some h

theorem find?_of_mem_id {l : List Transfer} {p : Transfer} (hp : p ∈ l)
    {j : Nat} (hid : p.id = j) :
    ∃ v, l.find? (fun t => t.id = j) = some v := by
  have : (l.find? (fun t => t.id = j)).isSome := by
    rw [List.find?_isSome]
    exact ⟨p, hp, by simpa using hid⟩
  rcases ho : l.find? (fun t => t.id = j) with _ | v
  · rw [ho] at this; simp at this
  · exact ⟨v, ho⟩

/-- Appending a fresh transfer never changes the amount an existing
reference resolves to. -/
theorem pendingAmount_append {l : List Transfer} {j : Nat} {p : Transfer}
    (hp : p ∈ l) (hid : p.id = j) (x : Transfer) :
    pendingAmount (l ++ [x]) j = pendingAmount l j := by
  obtain ⟨v, hv⟩ := find?_of_mem_id hp hid
  unfold pendingAmount
  rw [hv, find?_append_of_some hv]

theorem applyDelta_congr {pa pa' : Nat → Nat} {i : Nat} {t : Transfer}
    (h : (t.postPending = true ∨ t.voidPending = true) →
      pa t.pending_id = pa' t.pending_id) (q : Quad) :
    applyDelta pa i t q = applyDelta pa' i t q := by
  unfold applyDelta
  by_cases h1 : t.pending = true
  · simp [h1]
  rcases h2 : t.postPending with _ | _
  · rcases h3 : t.voidPending with _ | _
    · simp [h1, h2, h3]
    · have hpa := h (Or.inr h3)
      simp [h1, h2, h3, hpa]
  · have hpa := h (Or.inl h2)
    simp [h1, h2, hpa]

theorem applyDelta_not_involved {pa : Nat → Nat} {i : Nat} {t : Transfer}
    (h : involves i t = false) (q : Quad) : applyDelta pa i t q = q := by
  unfold involves at h
  simp only [Bool.or_eq_false_iff, decide_eq_false_iff_not] at h
  unfold applyDelta
  by_cases h1 : t.pending = true <;>
    by_cases h2 : t.postPending = true <;>
      by_cases h3 : t.voidPending = true <;>
        simp [h1, h2, h3, h.1, h.2]

theorem replayQuad_congr {pa pa' : Nat → Nat} {i : Nat} :
    ∀ (ts : List Transfer) (q : Quad),
      (∀ t ∈ ts, (t.postPending = true ∨ t.voidPending = true) →
        pa t.pending_id = pa' t.pending_id) →
      replayQuad pa i ts q = replayQuad pa' i ts q
  | [], q, _ => rfl
  | t :: ts, q, h => by
      unfold replayQuad
      simp only [List.foldl_cons]
      rw [applyDelta_congr (h t (List.mem_cons_self t ts)) q]
      exact replayQuad_congr ts _ (fun u hu => h u (List.mem_cons_of_mem t hu))

theorem replayQuad_cons (pa : Nat → Nat) (i : Nat) (t : Transfer)
    (ts : List Transfer) (q : Quad) :
    replayQuad pa i (t :: ts) q = replayQuad pa i ts (applyDelta pa i t q) :=
  rfl

theorem histReplay_congr {pa pa' : Nat → Nat} {i : Nat} :
    ∀ (ts : List Transfer) (q : Quad),
      (∀ t ∈ ts, (t.postPending = true ∨ t.voidPending = true) →
        pa t.pending_id = pa' t.pending_id) →
      histReplay pa i ts q = histReplay pa' i ts q
  | [], _, _ => rfl
  | t :: ts, q, h => by
      have hc := @applyDelta_congr pa pa' i t
        (h t (List.mem_cons_self t ts)) q
      have ih := fun q' => @histReplay_congr pa pa' i
        ts q' (fun u hu => h u (List.mem_cons_of_mem t hu))
      unfold histReplay
      rw [hc]
      split
      · rw [ih]
      · rw [ih]

theorem replayQuad_append (pa : Nat → Nat) (i : Nat) (T : Transfer) :
    ∀ (ts : List Transfer) (q : Quad),
      replayQuad pa i (ts ++ [T]) q =
        applyDelta pa i T (replayQuad pa i ts q)
  | [], q => rfl
  | t :: ts, q => by
      unfold replayQuad
      simp only [List.cons_append, List.foldl_cons]
      exact replayQuad_append pa i T ts _

theorem replayQuad_no_involvement {pa : Nat → Nat} {i : Nat} :
    ∀ (ts : List Transfer) (q : Quad),
      (∀ u ∈ ts, involves i u = false) → replayQuad pa i ts q = q
  | [], _, _ => rfl
  | t :: ts, q, h => by
      rw [replayQuad_cons,
        applyDelta_not_involved (h t (List.mem_cons_self t ts))]
      exact replayQuad_no_involvement ts q
        (fun u hu => h u (List.mem_cons_of_mem t hu))

theorem histReplay_no_involvement {pa : Nat → Nat} {i : Nat} :
    ∀ (ts : List Transfer) (q : Quad),
      (∀ u ∈ ts, involves i u = false) → histReplay pa i ts q = []
  | [], _, _ => rfl
  | t :: ts, q, h => by
      unfold histReplay
      rw [if_neg (by rw [h t (List.mem_cons_self t ts)]; simp)]
      exact histReplay_no_involvement ts q
        (fun u hu => h u (List.mem_cons_of_mem t hu))

theorem histReplay_append (pa : Nat → Nat) (i : Nat) (T : Transfer) :
    ∀ (ts : List Transfer) (q : Quad),
      histReplay pa i (ts ++ [T]) q =
        histReplay pa i ts q ++
          (if involves i T then
            [⟨T.timestamp, applyDelta pa i T (replayQuad pa i ts q)⟩]
          else [])
  | [], q => by
      by_cases hi : involves i T = true <;>
        simp [histReplay, hi, replayQuad]
  | t :: ts, q => by
      simp only [List.cons_append]
      unfold histReplay
      by_cases hi : involves i t = true
      · rw [if_pos hi, if_pos hi, histReplay_append pa i T ts _,
          replayQuad_cons]
        simp
      · have hif : involves i t = false := by
          revert hi; cases involves i t <;> simp
        rw [if_neg hi, if_neg hi, histReplay_append pa i T ts _,
          replayQuad_cons, applyDelta_not_involved hif]
theorem applyDelta_balanced (pa : Nat → Nat) (T : Transfer) {dId cId : Nat}
    (hd : dId = T.debit_account_id) (hc : cId = T.credit_account_id)
    (hne : dId ≠ cId) (q q' : Quad) :
    ∃ x,
      (applyDelta pa dId T q).dpo = q.dpo + x ∧
      (applyDelta pa dId T q).cpo = q.cpo ∧
      (applyDelta pa cId T q').cpo = q'.cpo + x ∧
      (applyDelta pa cId T q').dpo = q'.dpo := by
  subst hd hc
  have hcd : T.credit_account_id ≠ T.debit_account_id := Ne.symm hne
  unfold applyDelta
  by_cases h1 : T.pending = true
  · exact ⟨0, by simp [h1, hcd]⟩
  by_cases h2 : T.postPending = true
  · exact ⟨T.amount, by simp [h1, h2, hcd]⟩
  by_cases h3 : T.voidPending = true
  · exact ⟨0, by simp [h1, h2, h3, hcd]⟩
  · exact ⟨T.amount, by simp [h1, h2, h3, hcd]⟩

theorem Account.withQuad_hasHistory (a : Account) (q : Quad) :
     (a.withQuad q).hasHistory = a.hasHistory := rfl

theorem Account.withQuad_quad (a : Account) (q : Quad) :
    (a.withQuad q).quad = q := rfl

theorem StoreInv_commitTransfer {s : Store} {t : Transfer}
    {da ca : Account} {A : Nat} (qd qc : Quad)
    (inv : StoreInv s)
    (hda : lookup_account t.debit_account_id s = some da)
    (hca : lookup_account t.credit_account_id s = some ca)
    (hneq : t.debit_account_id ≠ t.credit_account_id)
    (hld : da.ledger = t.ledger) (hlc : ca.ledger = t.ledger)
    (hnone : lookup_transfer t.id s = none)
    (htid : t.id ≠ 0) (htd0 : t.debit_account_id ≠ 0)
    (htc0 : t.credit_account_id ≠ 0) (htl0 : t.ledger ≠ 0)
    (htcd0 : t.code ≠ 0)
    (hA : (A = 0 && !(t.postPending || t.voidPending ||
      t.balancingDebit || t.balancingCredit)) = false)
    (hexcl : transferFlagsExclusive t = true)
    (hpref : (t.postPending = true ∨ t.voidPending = true) →
      ∃ p ∈ s.transfers, p.id = t.pending_id)
    (hqd : qd = applyDelta
      (pendingAmount (s.transfers ++ [{ t with amount := A, timestamp := s.nextTs }]))
      t.debit_account_id { t with amount := A, timestamp := s.nextTs } da.quad)
    (hqc : qc = applyDelta
      (pendingAmount (s.transfers ++ [{ t with amount := A, timestamp := s.nextTs }]))
      t.credit_account_id { t with amount := A, timestamp := s.nextTs } ca.quad) :
    StoreInv (commitTransfer { t with amount := A, timestamp := s.nextTs }
      (da.withQuad qd) (ca.withQuad qc) s) := by
  have hdid : da.id = t.debit_account_id := lookup_account_some_id hda
  have hcid : ca.id = t.credit_account_id := lookup_account_some_id hca
  have hneid : da.id ≠ ca.id := by rw [hdid, hcid]; exact hneq
  have hmemda : da ∈ s.accounts := lookup_account_mem hda
  have hmemca : ca ∈ s.accounts := lookup_account_mem hca
  have hfindDA : s.accounts.find? (fun x => x.id = da.id) = some da := by
    rw [hdid]; exact hda
  have hfindCA : s.accounts.find? (fun x => x.id = ca.id) = some ca := by
    rw [hcid]; exact hca
  have hfindCA2 : (putAccount (da.withQuad qd) s.accounts).find?
      (fun x => x.id = ca.id) = some ca := by
    rw [find?_putAccount_other (da.withQuad qd) s.accounts ca.id
      (Ne.symm hneid)]
    exact hfindCA
  have hmapIds : (putAccount (ca.withQuad qc)
      (putAccount (da.withQuad qd) s.accounts)).map (fun a => a.id) =
      s.accounts.map (fun a => a.id) := by
    rw [map_putAccount_eq (fun a => a.id) (ca.withQuad qc) ca _ hfindCA2 rfl,
        map_putAccount_eq (fun a => a.id) (da.withQuad qd) da _ hfindDA rfl]
  have hmapTs : (putAccount (ca.withQuad qc)
      (putAccount (da.withQuad qd) s.accounts)).map (fun a => a.timestamp) =
      s.accounts.map (fun a => a.timestamp) := by
    rw [map_putAccount_eq (fun a => a.timestamp) (ca.withQuad qc) ca _ hfindCA2 rfl,
        map_putAccount_eq (fun a => a.timestamp) (da.withQuad qd) da _ hfindDA rfl]
  have hidnotin : ∀ u ∈ s.transfers, u.id ≠ t.id := by
    intro u hu
    have := List.find?_eq_none.mp hnone u hu
    simpa using this
  have hpa : ∀ u ∈ s.transfers,
      (u.postPending = true ∨ u.voidPending = true) →
      pendingAmount (s.transfers ++
        [{ t with amount := A, timestamp := s.nextTs }]) u.pending_id =
      pendingAmount s.transfers u.pending_id := by
    intro u hu hf
    obtain ⟨p, hp, hpid⟩ := inv.pendingClosed u hu hf
    exact pendingAmount_append hp hpid _
  have hallts : ∀ x ∈ allTs s, x < s.nextTs := by
    intro x hx
    rcases List.mem_append.mp hx with hx | hx
    · obtain ⟨a, ha, hax⟩ := List.mem_map.mp hx
      exact hax ▸ inv.accTs a ha
    · obtain ⟨u, hu, hux⟩ := List.mem_map.mp hx
      exact hux ▸ inv.txTs u hu
  refine ⟨?_, ?_, ?_, ?_, ?_, ?_, ?_, ?_, ?_, ?_, ?_, ?_, ?_, ?_⟩
  · -- accIds
    show ((putAccount (ca.withQuad qc)
      (putAccount (da.withQuad qd) s.accounts)).map (fun a => a.id)).Nodup
    rw [hmapIds]
    exact inv.accIds
  · -- txIds
    show ((s.transfers ++
      [{ t with amount := A, timestamp := s.nextTs }]).map
        (fun u : Transfer => u.id)).Nodup
    rw [List.map_append, List.nodup_append]
    refine ⟨inv.txIds, by simp, ?_⟩
    intro x hx
    obtain ⟨u, hu, hux⟩ := List.mem_map.mp hx
    simp only [List.map_cons, List.map_nil, List.mem_singleton]
    intro hxid
    exact hidnotin u hu (hux.trans hxid)
  · -- accTs
    intro a hmem
    show a.timestamp < s.nextTs + 1
    rcases mem_putAccount _ _ a hmem with h | h
    · have : a.timestamp = ca.timestamp := by rw [h]; rfl
      have := inv.accTs ca hmemca
      omega
    · rcases mem_putAccount _ _ a h with h2 | h2
      · have : a.timestamp = da.timestamp := by rw [h2]; rfl
        have := inv.accTs da hmemda
        omega
      · have := inv.accTs a h2
        omega
  · -- txTs
    intro u hu
    show u.timestamp < s.nextTs + 1
    rcases List.mem_append.mp hu with h | h
    · have := inv.txTs u h
      omega
    · have : u.timestamp = s.nextTs := by
        rw [List.mem_singleton.mp h]
      omega
  · -- tsNodup
    show ((putAccount (ca.withQuad qc)
        (putAccount (da.withQuad qd) s.accounts)).map (fun a => a.timestamp) ++
      (s.transfers ++
        [{ t with amount := A, timestamp := s.nextTs }]).map
          (fun u : Transfer => u.timestamp)).Nodup
    rw [hmapTs, List.map_append, ← List.append_assoc]
    rw [List.nodup_append]
    refine ⟨inv.tsNodup, by simp, ?_⟩
    intro x hx
    simp only [List.map_cons, List.map_nil, List.mem_singleton]
    intro hxts
    have := hallts x hx
    omega
  · -- txSorted
    show ((s.transfers ++
      [{ t with amount := A, timestamp := s.nextTs }]).map
        (fun u : Transfer => u.timestamp)).Pairwise (· < ·)
    rw [List.map_append, List.pairwise_append]
    refine ⟨inv.txSorted, by simp, ?_⟩
    intro x hx y hy
    obtain ⟨u, hu, hux⟩ := List.mem_map.mp hx
    simp only [List.map_cons, List.map_nil, List.mem_singleton] at hy
    rw [hy, ← hux]
    exact inv.txTs u hu
  · -- conserving
    intro L
    show ((putAccount (ca.withQuad qc)
      (putAccount (da.withQuad qd) s.accounts)).map (balOf L)).sum = 0
    rw [sum_map_putAccount (balOf L) (ca.withQuad qc) ca _ hfindCA2,
        sum_map_putAccount (balOf L) (da.withQuad qd) da _ hfindDA]
    have h0 : (s.accounts.map (balOf L)).sum = 0 := inv.conserving L
    obtain ⟨x, hx1, hx2, hx3, hx4⟩ := applyDelta_balanced
      (pendingAmount (s.transfers ++
        [{ t with amount := A, timestamp := s.nextTs }]))
      { t with amount := A, timestamp := s.nextTs } rfl rfl hneq da.quad ca.quad
    rw [← hqd] at hx1 hx2
    rw [← hqc] at hx3 hx4
    have hbal : balOf L (da.withQuad qd) + balOf L (ca.withQuad qc)
        = balOf L da + balOf L ca := by
      simp only [balOf, Account.withQuad, Account.quad] at *
      by_cases hL : t.ledger = L
      · rw [if_pos (hld.trans hL), if_pos (hlc.trans hL),
          if_pos (hld.trans hL), if_pos (hlc.trans hL)]
        omega
      · rw [if_neg (hL ∘ hld.symm.trans ∘ Eq.symm ∘ Eq.symm),
          if_neg (fun hh => hL (hlc.symm.trans hh)),
          if_neg (fun hh => hL (hld.symm.trans hh)),
          if_neg (fun hh => hL (hlc.symm.trans hh))]
    omega
  · -- indexSpec
    intro i
    simp only [commitTransfer]
    rw [List.filter_append, List.map_append, inv.indexSpec i]
    by_cases hdi : i = t.debit_account_id
    · subst hdi
      have hinv : involves t.debit_account_id
          { t with amount := A, timestamp := s.nextTs } = true := by
        simp [involves]
      simp [List.filter, hinv, entryFor]
    · by_cases hci : i = t.credit_account_id
      · subst hci
        have hinv : involves t.credit_account_id
            { t with amount := A, timestamp := s.nextTs } = true := by
          simp [involves]
        simp [List.filter, hinv, entryFor, Ne.symm hneq]
      · have hinv : involves i
            { t with amount := A, timestamp := s.nextTs } = false := by
          simp [involves, hdi, hci]
        simp [List.filter, hinv, hdi, hci]
  · -- pendingClosed
    intro u hu hf
    rcases List.mem_append.mp hu with h | h
    · obtain ⟨p, hp, hpid⟩ := inv.pendingClosed u h hf
      exact ⟨p, List.mem_append_left _ hp, hpid⟩
    · have hu' : u = { t with amount := A, timestamp := s.nextTs } :=
        List.mem_singleton.mp h
      subst hu'
      obtain ⟨p, hp, hpid⟩ := hpref hf
      exact ⟨p, List.mem_append_left _ hp, hpid⟩
  · -- quadSpec
    intro i a hlook
    show a.quad = replayQuad
      (pendingAmount (s.transfers ++
        [{ t with amount := A, timestamp := s.nextTs }])) i
      (s.transfers ++ [{ t with amount := A, timestamp := s.nextTs }])
      Quad.zero
    rw [replayQuad_append, replayQuad_congr _ _ hpa]
    by_cases hdi : i = t.debit_account_id
    · subst hdi
      have hl2 : lookup_account t.debit_account_id
          (commitTransfer { t with amount := A, timestamp := s.nextTs }
            (da.withQuad qd) (ca.withQuad qc) s) = some (da.withQuad qd) :=
        lookup_account_commitTransfer_debit' _ _ _ s hneid hdid
      have haa : a = da.withQuad qd := by
        have := hlook.symm.trans hl2
        injection this
      subst haa
      rw [Account.withQuad_quad, ← inv.quadSpec t.debit_account_id da hda]
      exact hqd
    · by_cases hci : i = t.credit_account_id
      · subst hci
        have hl2 : lookup_account t.credit_account_id
            (commitTransfer { t with amount := A, timestamp := s.nextTs }
              (da.withQuad qd) (ca.withQuad qc) s) = some (ca.withQuad qc) :=
          lookup_account_commitTransfer_credit' _ _ _ s hcid
        have haa : a = ca.withQuad qc := by
          have := hlook.symm.trans hl2
          injection this
        subst haa
        rw [Account.withQuad_quad, ← inv.quadSpec t.credit_account_id ca hca]
        exact hqc
      · have hl2 : lookup_account i
            (commitTransfer { t with amount := A, timestamp := s.nextTs }
              (da.withQuad qd) (ca.withQuad qc) s) = lookup_account i s :=
          lookup_account_commitTransfer_other _ _ _ s
            (fun hh => hdi (hh.trans hdid))
            (fun hh => hci (hh.trans hcid))
        rw [hl2] at hlook
        have hq := inv.quadSpec i a hlook
        have hninv : involves i
            { t with amount := A, timestamp := s.nextTs } = false := by
          simp [involves, hdi, hci]
        rw [applyDelta_not_involved hninv, ← hq]
  · -- histSpec
    intro i
    have hrd : ({ t with amount := A, timestamp := s.nextTs } :
        Transfer).debit_account_id = t.debit_account_id := rfl
    have hrc : ({ t with amount := A, timestamp := s.nextTs } :
        Transfer).credit_account_id = t.credit_account_id := rfl
    by_cases hdi : i = t.debit_account_id
    · subst hdi
      have hl2 : lookup_account t.debit_account_id
          (commitTransfer { t with amount := A, timestamp := s.nextTs }
            (da.withQuad qd) (ca.withQuad qc) s) = some (da.withQuad qd) :=
        lookup_account_commitTransfer_debit' _ _ _ s hneid hdid
      have hold := inv.histSpec t.debit_account_id
      simp only [hda] at hold
      rw [hl2]
      simp only [commitTransfer, Account.withQuad_hasHistory, hrd, hrc,
        eq_self_iff_true, if_true]
      by_cases hh : da.hasHistory = true
      · rw [if_pos hh, if_pos hh, hold, if_pos hh, histReplay_append,
          histReplay_congr _ _ hpa, replayQuad_congr _ _ hpa,
          ← inv.quadSpec t.debit_account_id da hda]
        simp [involves, hqd, Account.withQuad_quad]
      · rw [if_neg hh, if_neg hh, hold, if_neg hh]
    · by_cases hci : i = t.credit_account_id
      · subst hci
        have hl2 : lookup_account t.credit_account_id
            (commitTransfer { t with amount := A, timestamp := s.nextTs }
              (da.withQuad qd) (ca.withQuad qc) s) = some (ca.withQuad qc) :=
          lookup_account_commitTransfer_credit' _ _ _ s hcid
        have hold := inv.histSpec t.credit_account_id
        simp only [hca] at hold
        rw [hl2]
        simp only [commitTransfer, Account.withQuad_hasHistory, hrd, hrc,
          eq_self_iff_true, if_true, Ne.symm hneq, if_false]
        by_cases hh : ca.hasHistory = true
        · rw [if_pos hh, if_pos hh, hold, if_pos hh, histReplay_append,
            histReplay_congr _ _ hpa, replayQuad_congr _ _ hpa,
            ← inv.quadSpec t.credit_account_id ca hca]
          simp [involves, hqc, Ne.symm hneq, Account.withQuad_quad]
        · rw [if_neg hh, if_neg hh, hold, if_neg hh]
      · have hl2 : lookup_account i
            (commitTransfer { t with amount := A, timestamp := s.nextTs }
              (da.withQuad qd) (ca.withQuad qc) s) = lookup_account i s :=
          lookup_account_commitTransfer_other _ _ _ s
            (fun hh => hdi (hh.trans hdid))
            (fun hh => hci (hh.trans hcid))
        have hninv : involves i
            { t with amount := A, timestamp := s.nextTs } = false := by
          simp [involves, hdi, hci]
        have hold := inv.histSpec i
        rw [hl2]
        simp only [commitTransfer, hrd, hrc, hdi, hci, if_false]
        rw [hold]
        rcases hla : lookup_account i s with _ | a
        · rfl
        · simp only []
          by_cases hh : a.hasHistory = true
          · rw [if_pos hh, if_pos hh, histReplay_append,
              histReplay_congr _ _ hpa, hninv]
            simp
          · rw [if_neg hh, if_neg hh]
  · -- accValid
    intro a hmem
    rcases mem_putAccount _ _ a hmem with h | h
    · rw [h]
      exact inv.accValid ca hmemca
    · rcases mem_putAccount _ _ a h with h2 | h2
      · rw [h2]
        exact inv.accValid da hmemda
      · exact inv.accValid a h2
  · -- txValid
    intro u hu
    rcases List.mem_append.mp hu with h | h
    · exact inv.txValid u h
    · have hu' : u = { t with amount := A, timestamp := s.nextTs } :=
        List.mem_singleton.mp h
      subst hu'
      exact ⟨htid, htd0, htc0, hneq, htl0, htcd0, hA, hexcl⟩
  · -- txAccs
    have hlookAny : ∀ j, (lookup_account j s).isSome →
        (lookup_account j (commitTransfer
          { t with amount := A, timestamp := s.nextTs }
          (da.withQuad qd) (ca.withQuad qc) s)).isSome := by
      intro j hj
      by_cases hdj : j = t.debit_account_id
      · subst hdj
        rw [lookup_account_commitTransfer_debit'
          { t with amount := A, timestamp := s.nextTs }
          (da.withQuad qd) (ca.withQuad qc) s hneid hdid]
        simp
      · by_cases hcj : j = t.credit_account_id
        · subst hcj
          rw [lookup_account_commitTransfer_credit'
            { t with amount := A, timestamp := s.nextTs }
            (da.withQuad qd) (ca.withQuad qc) s hcid]
          simp
        · rw [lookup_account_commitTransfer_other
            { t with amount := A, timestamp := s.nextTs }
            (da.withQuad qd) (ca.withQuad qc) s
            (fun hh => hdj (hh.trans hdid))
            (fun hh => hcj (hh.trans hcid))]
          exact hj
    intro u hu
    rcases List.mem_append.mp hu with h | h
    · obtain ⟨h1, h2⟩ := inv.txAccs u h
      exact ⟨hlookAny _ h1, hlookAny _ h2⟩
    · have hu' : u = { t with amount := A, timestamp := s.nextTs } :=
        List.mem_singleton.mp h
      subst hu'
      constructor
      · exact hlookAny _ (by rw [hda]; rfl)
      · exact hlookAny _ (by rw [hca]; rfl)
/-- The invariant never depends on the resolved markers. -/
theorem StoreInv_resolved_update {s : Store} (r : Nat → Option Bool)
    (inv : StoreInv s) : StoreInv { s with resolved := r } :=
  ⟨inv.accIds, inv.txIds, inv.accTs, inv.txTs, inv.tsNodup, inv.txSorted,
   inv.conserving, inv.indexSpec, inv.pendingClosed, inv.quadSpec,
   inv.histSpec, inv.accValid, inv.txValid, inv.txAccs⟩

/-- `create_account` either reports `OK` or leaves the store untouched. -/
theorem create_account_cases {a : Account} {s : Store} :
    (create_account a s).1 = Code.OK ∨ (create_account a s).2 = s := by
  unfold create_account
  split
  · exact Or.inr rfl
  split
  · exact Or.inr rfl
  split
  · exact Or.inr rfl
  split
  · exact Or.inr rfl
  split
  · split
    · exact Or.inr rfl
    split
    · exact Or.inr rfl
    · exact Or.inr rfl
  · exact Or.inl rfl

/-- Adding a fresh, valid account with zeroed balances and the next
timestamp preserves the invariant. -/
theorem StoreInv_append_account {a : Account} {s : Store} (inv : StoreInv s)
    (h0 : a.id ≠ 0) (hl0 : a.ledger ≠ 0) (hc0 : a.code ≠ 0)
    (hcf : (a.debitsMustNotExceedCredits && a.creditsMustNotExceedDebits)
      = false)
    (hnone : lookup_account a.id s = none) :
    StoreInv { s with accounts := s.accounts ++ [a.initAt s.nextTs],
                      nextTs := s.nextTs + 1 } := by
  have hidne : ∀ x ∈ s.accounts, x.id ≠ a.id := by
    intro x hx
    have hh := List.find?_eq_none.mp hnone x hx
    simpa using hh
  have hbid : (a.initAt s.nextTs).id = a.id := rfl
  have hnoinv : ∀ u ∈ s.transfers, involves a.id u = false := by
    intro u hu
    obtain ⟨h1, h2⟩ := inv.txAccs u hu
    unfold involves
    simp only [Bool.or_eq_false_iff, decide_eq_false_iff_not]
    constructor
    · intro he
      rw [← he, hnone] at h1
      simp at h1
    · intro he
      rw [← he, hnone] at h2
      simp at h2
  refine ⟨?_, ?_, ?_, ?_, ?_, ?_, ?_, ?_, ?_, ?_, ?_, ?_, ?_, ?_⟩
  · -- accIds
    show ((s.accounts ++ [a.initAt s.nextTs]).map (fun a => a.id)).Nodup
    rw [List.map_append]
    refine List.Nodup.append inv.accIds (by simp) ?_
    intro x hx hy
    obtain ⟨y, hy2, hxy⟩ := List.mem_map.mp hx
    have hy3 : x = (a.initAt s.nextTs).id := by simpa using hy
    exact hidne y hy2 ((hxy.trans hy3).trans hbid)
  · -- txIds
    exact inv.txIds
  · -- accTs
    intro x hx
    rcases List.mem_append.mp hx with h | h
    · exact Nat.lt_succ_of_lt (inv.accTs x h)
    · rw [List.mem_singleton.mp h]
      exact Nat.lt_succ_self s.nextTs
  · -- txTs
    exact fun u hu => Nat.lt_succ_of_lt (inv.txTs u hu)
  · -- tsNodup
    show (((s.accounts ++ [a.initAt s.nextTs]).map
        (fun a => a.timestamp)) ++
      s.transfers.map (fun t => t.timestamp)).Nodup
    rw [List.map_append]
    obtain ⟨hA, hB, hABdisj⟩ := List.nodup_append.mp inv.tsNodup
    refine List.nodup_append.mpr
      ⟨List.nodup_append.mpr ⟨hA, by simp, ?_⟩, hB, ?_⟩
    · intro z hz hz2
      have h1 : z < s.nextTs := by
        obtain ⟨y, hy, hyz⟩ := List.mem_map.mp hz
        rw [← hyz]; exact inv.accTs y hy
      have h2 : z = s.nextTs := by
        simpa [Account.initAt] using hz2
      omega
    · intro z hz hz2
      rcases List.mem_append.mp hz with h | h
      · exact hABdisj h hz2
      · have h1 : z = s.nextTs := by
          simpa [Account.initAt] using h
        have h2 : z < s.nextTs := by
          obtain ⟨y, hy, hyz⟩ := List.mem_map.mp hz2
          rw [← hyz]; exact inv.txTs y hy
        omega
  · -- txSorted
    exact inv.txSorted
  · -- conserving
    intro L
    show ((s.accounts ++ [a.initAt s.nextTs]).map (balOf L)).sum = 0
    rw [List.map_append, List.sum_append]
    have h1 : balOf L (a.initAt s.nextTs) = 0 := by
      unfold balOf Account.initAt
      split <;> simp
    have h2 := inv.conserving L
    unfold ledgerDiff at h2
    simp [h1, h2]
  · -- indexSpec
    exact inv.indexSpec
  · -- pendingClosed
    exact inv.pendingClosed
  · -- quadSpec
    intro i x hx
    show x.quad = replayQuad (pendingAmount s.transfers) i s.transfers
      Quad.zero
    have hx' : (s.accounts ++ [a.initAt s.nextTs]).find?
        (fun b => b.id = i) = some x := hx
    rcases ho : s.accounts.find? (fun b => b.id = i) with _ | y
    · rw [find?_append_of_none ho] at hx'
      split at hx'
      · rename_i hdec
        have hxe : x = a.initAt s.nextTs := by
          injection hx' with h
          exact h.symm
        subst hxe
        have hii : a.id = i := by
          simpa [Account.initAt] using hdec
        subst hii
        rw [replayQuad_no_involvement s.transfers Quad.zero hnoinv]
        rfl
      · exact Option.noConfusion hx'
    · rw [find?_append_of_some ho] at hx'
      have hxy : y = x := by injection hx'
      rw [← hxy]
      exact inv.quadSpec i y ho
  · -- histSpec
    intro i
    rcases ho : s.accounts.find? (fun b => b.id = i) with _ | y
    · have hold : s.history i = [] := by
        have hh := inv.histSpec i
        rw [show lookup_account i s = none from ho] at hh
        exact hh
      by_cases hid : a.id = i
      · have hnew : lookup_account i
            { s with accounts := s.accounts ++ [a.initAt s.nextTs],
                     nextTs := s.nextTs + 1 } =
            some (a.initAt s.nextTs) := by
          show (s.accounts ++ [a.initAt s.nextTs]).find?
            (fun b => b.id = i) = some (a.initAt s.nextTs)
          rw [find?_append_of_none ho]
          simp [List.find?, Account.initAt, hid]
        rw [hnew]
        subst hid
        by_cases hh : (a.initAt s.nextTs).hasHistory = true
        · show s.history a.id = if (a.initAt s.nextTs).hasHistory
              then histReplay (pendingAmount s.transfers) a.id s.transfers
                Quad.zero
              else []
          rw [if_pos hh,
            histReplay_no_involvement s.transfers Quad.zero hnoinv, hold]
        · show s.history a.id = if (a.initAt s.nextTs).hasHistory
              then histReplay (pendingAmount s.transfers) a.id s.transfers
                Quad.zero
              else []
          rw [if_neg hh, hold]
      · have hnew : lookup_account i
            { s with accounts := s.accounts ++ [a.initAt s.nextTs],
                     nextTs := s.nextTs + 1 } = none := by
          show (s.accounts ++ [a.initAt s.nextTs]).find?
            (fun b => b.id = i) = none
          rw [find?_append_of_none ho]
          simp [List.find?, Account.initAt, hid]
        rw [hnew]
        exact hold
    · have hnew : lookup_account i
          { s with accounts := s.accounts ++ [a.initAt s.nextTs],
                   nextTs := s.nextTs + 1 } = some y :=
        find?_append_of_some ho _
      rw [hnew]
      have hh := inv.histSpec i
      rw [show lookup_account i s = some y from ho] at hh
      exact hh
  · -- accValid
    intro x hx
    rcases List.mem_append.mp hx with h | h
    · exact inv.accValid x h
    · rw [List.mem_singleton.mp h]
      exact ⟨h0, hl0, hc0, hcf⟩
  · -- txValid
    exact inv.txValid
  · -- txAccs
    intro u hu
    obtain ⟨h1, h2⟩ := inv.txAccs u hu
    constructor
    · rcases hq : lookup_account u.debit_account_id s with _ | z
      · rw [hq] at h1; simp at h1
      · have hq' : lookup_account u.debit_account_id
            { s with accounts := s.accounts ++ [a.initAt s.nextTs],
                     nextTs := s.nextTs + 1 } = some z :=
          find?_append_of_some hq _
        rw [hq']; rfl
    · rcases hq : lookup_account u.credit_account_id s with _ | z
      · rw [hq] at h2; simp at h2
      · have hq' : lookup_account u.credit_account_id
            { s with accounts := s.accounts ++ [a.initAt s.nextTs],
                     nextTs := s.nextTs + 1 } = some z :=
          find?_append_of_some hq _
        rw [hq']; rfl

/-- `create_account` preserves the invariant. -/
theorem StoreInv_create_account {a : Account} {s : Store}
    (inv : StoreInv s) : StoreInv (create_account a s).2 := by
  rcases @create_account_cases a s with hc | hs
  · have hok : create_account a s = (Code.OK, (create_account a s).2) := by
      rw [← hc]
    obtain ⟨h0, hl0, hc0, hcf, hnone, hs'⟩ := create_account_ok hok
    rw [hs']
    refine StoreInv_append_account inv h0 hl0 hc0 ?_ hnone
    revert hcf
    cases (a.debitsMustNotExceedCredits && a.creditsMustNotExceedDebits) <;>
      simp
  · rw [hs]
    exact inv

/-- A transfer accepted by `create_transferE` passed every record-local
validation. -/
theorem create_transferE_ok_valid {t : Transfer} {s s2 : Store}
    (h : create_transferE t s = Except.ok s2) :
    t.id ≠ 0 ∧ t.debit_account_id ≠ 0 ∧ t.credit_account_id ≠ 0 ∧
    t.ledger ≠ 0 ∧ t.code ≠ 0 ∧
    (t.amount = 0 && !(t.postPending || t.voidPending ||
      t.balancingDebit || t.balancingCredit)) = false ∧
    transferFlagsExclusive t = true := by
  unfold create_transferE at h
  by_cases h1 : t.id = 0
  · rw [if_pos h1] at h; exact Except.noConfusion h
  rw [if_neg h1] at h
  by_cases h2 : t.debit_account_id = 0
  · rw [if_pos h2] at h; exact Except.noConfusion h
  rw [if_neg h2] at h
  by_cases h3 : t.credit_account_id = 0
  · rw [if_pos h3] at h; exact Except.noConfusion h
  rw [if_neg h3] at h
  by_cases h4 : t.debit_account_id = t.credit_account_id
  · rw [if_pos h4] at h; exact Except.noConfusion h
  rw [if_neg h4] at h
  by_cases h5 : t.ledger = 0
  · rw [if_pos h5] at h; exact Except.noConfusion h
  rw [if_neg h5] at h
  by_cases h6 : t.code = 0
  · rw [if_pos h6] at h; exact Except.noConfusion h
  rw [if_neg h6] at h
  by_cases h7 : (t.amount = 0 && !(t.postPending || t.voidPending ||
      t.balancingDebit || t.balancingCredit)) = true
  · rw [if_pos h7] at h; exact Except.noConfusion h
  rw [if_neg h7] at h
  by_cases h8 : ¬ transferFlagsExclusive t = true
  · rw [if_pos h8] at h; exact Except.noConfusion h
  refine ⟨h1, h2, h3, h5, h6, ?_, not_not.mp h8⟩
  revert h7
  cases (t.amount = 0 && !(t.postPending || t.voidPending ||
      t.balancingDebit || t.balancingCredit)) <;> simp

/-- A pending transfer passing the exclusivity check carries neither
post-pending nor void-pending. -/
theorem flagsExclusive_pending {t : Transfer}
    (hexcl : transferFlagsExclusive t = true) (hp : t.pending = true) :
    t.postPending = false ∧ t.voidPending = false := by
  unfold transferFlagsExclusive at hexcl
  rcases h1 : t.postPending with _ | _ <;>
    rcases h2 : t.voidPending with _ | _ <;>
      simp [hp, h1, h2] at hexcl ⊢

/-- `create_transfer` preserves the invariant. -/
theorem StoreInv_create_transfer {t : Transfer} {s : Store}
    (inv : StoreInv s) : StoreInv (create_transfer t s).2 := by
  rcases hE : create_transferE t s with e | s2
  · have hval : create_transfer t s = (e, s) := by
      unfold create_transfer
      rw [hE]
    rw [hval]
    exact inv
  · have hok : create_transfer t s = (Code.OK, s2) := by
      unfold create_transfer
      rw [hE]
    have hsnd : (create_transfer t s).2 = s2 := by rw [hok]
    rw [hsnd]
    obtain ⟨htid, htd0, htc0, htl0, htcd0, hAmt, hexcl⟩ :=
      create_transferE_ok_valid hE
    rcases create_transferE_shape hE with ⟨e, he, _⟩ | hsh
    · exact Except.noConfusion he
    obtain ⟨_, hneq, hnone, da, ca, hda, hca, hld, hlc, hr⟩ := hsh
    unfold dispatchTransfer at hr
    by_cases hp : t.pending = true
    · -- pending
      obtain ⟨hppf, hvf⟩ := flagsExclusive_pending hexcl hp
      rw [hp] at hr
      simp only [if_true] at hr
      obtain ⟨_, _, _, hcommit⟩ := applyPending_ok hr.symm
      rw [hcommit]
      have hP : ({ t with amount := t.amount, timestamp := s.nextTs }
          : Transfer).pending = true := hp
      have hqd : (⟨da.debits_pending + t.amount, da.debits_posted,
          da.credits_pending, da.credits_posted⟩ : Quad) =
          applyDelta (pendingAmount (s.transfers ++
            [{ t with amount := t.amount, timestamp := s.nextTs }]))
            t.debit_account_id
            { t with amount := t.amount, timestamp := s.nextTs } da.quad := by
        simp [applyDelta, hP, Account.quad]
      have hqc : (⟨ca.debits_pending, ca.debits_posted,
          ca.credits_pending + t.amount, ca.credits_posted⟩ : Quad) =
          applyDelta (pendingAmount (s.transfers ++
            [{ t with amount := t.amount, timestamp := s.nextTs }]))
            t.credit_account_id
            { t with amount := t.amount, timestamp := s.nextTs } ca.quad := by
        simp [applyDelta, hP, Ne.symm hneq, Account.quad]
      exact StoreInv_commitTransfer
        ⟨da.debits_pending + t.amount, da.debits_posted,
         da.credits_pending, da.credits_posted⟩
        ⟨ca.debits_pending, ca.debits_posted,
         ca.credits_pending + t.amount, ca.credits_posted⟩
        inv hda hca hneq hld hlc hnone htid htd0 htc0 htl0 htcd0
        hAmt hexcl
        (fun hcon => by
          rcases hcon with hcc | hcc
          · rw [hppf] at hcc; exact Bool.noConfusion hcc
          · rw [hvf] at hcc; exact Bool.noConfusion hcc)
        hqd hqc
    · have hpf : t.pending = false := by
        revert hp; cases t.pending <;> simp
      rw [hpf] at hr
      simp only [Bool.false_eq_true, if_false] at hr
      by_cases hpp : t.postPending = true
      · -- post-pending
        rw [hpp] at hr
        simp only [if_true] at hr
        obtain ⟨p, postAmt, href, hle, hpostAmt, _, _, hcommit⟩ :=
          applyPostPending_ok hr.symm
        obtain ⟨_, hlookp, hpend, hpd, hpc, _, hres⟩ := checkPendingRef_ok href
        rw [hcommit]
        have hP : ({ t with amount := postAmt, timestamp := s.nextTs }
            : Transfer).pending = false := hpf
        have hPP : ({ t with amount := postAmt, timestamp := s.nextTs }
            : Transfer).postPending = true := hpp
        have hpa : pendingAmount (s.transfers ++
            [{ t with amount := postAmt, timestamp := s.nextTs }])
            t.pending_id = p.amount := by
          rw [pendingAmount_append (lookup_transfer_mem hlookp)
            (lookup_transfer_some_id hlookp)]
          unfold pendingAmount
          rw [show s.transfers.find? (fun u => u.id = t.pending_id) = some p
            from hlookp]
        have hqd : (⟨da.debits_pending - p.amount,
            da.debits_posted + postAmt,
            da.credits_pending, da.credits_posted⟩ : Quad) =
            applyDelta (pendingAmount (s.transfers ++
              [{ t with amount := postAmt, timestamp := s.nextTs }]))
              t.debit_account_id
              { t with amount := postAmt, timestamp := s.nextTs } da.quad := by
          simp [applyDelta, hP, hPP, hpa, Account.quad]
        have hqc : (⟨ca.debits_pending, ca.debits_posted,
            ca.credits_pending - p.amount,
            ca.credits_posted + postAmt⟩ : Quad) =
            applyDelta (pendingAmount (s.transfers ++
              [{ t with amount := postAmt, timestamp := s.nextTs }]))
              t.credit_account_id
              { t with amount := postAmt, timestamp := s.nextTs } ca.quad := by
          simp [applyDelta, hP, hPP, hpa, Ne.symm hneq, Account.quad]
        have hA : (postAmt = 0 && !(t.postPending || t.voidPending ||
            t.balancingDebit || t.balancingCredit)) = false := by
          simp [hpp]
        refine StoreInv_resolved_update _ ?_
        exact StoreInv_commitTransfer
          ⟨da.debits_pending - p.amount, da.debits_posted + postAmt,
           da.credits_pending, da.credits_posted⟩
          ⟨ca.debits_pending, ca.debits_posted,
           ca.credits_pending - p.amount, ca.credits_posted + postAmt⟩
          inv hda hca hneq hld hlc hnone htid htd0 htc0 htl0 htcd0
          hA hexcl
          (fun _ => ⟨p, lookup_transfer_mem hlookp,
            lookup_transfer_some_id hlookp⟩)
          hqd hqc
      · have hppf : t.postPending = false := by
          revert hpp; cases t.postPending <;> simp
        rw [hppf] at hr
        simp only [Bool.false_eq_true, if_false] at hr
        by_cases hv : t.voidPending = true
        · -- void-pending
          rw [hv] at hr
          simp only [if_true] at hr
          obtain ⟨p, href, hamt, hcommit⟩ := applyVoidPending_ok hr.symm
          obtain ⟨_, hlookp, hpend, hpd, hpc, _, hres⟩ :=
            checkPendingRef_ok href
          rw [hcommit]
          have hP : ({ t with amount := t.amount, timestamp := s.nextTs }
              : Transfer).pending = false := hpf
          have hPP : ({ t with amount := t.amount, timestamp := s.nextTs }
              : Transfer).postPending = false := hppf
          have hV : ({ t with amount := t.amount, timestamp := s.nextTs }
              : Transfer).voidPending = true := hv
          have hpa : pendingAmount (s.transfers ++
              [{ t with amount := t.amount, timestamp := s.nextTs }])
              t.pending_id = p.amount := by
            rw [pendingAmount_append (lookup_transfer_mem hlookp)
              (lookup_transfer_some_id hlookp)]
            unfold pendingAmount
            rw [show s.transfers.find? (fun u => u.id = t.pending_id) = some p
              from hlookp]
          have hqd : (⟨da.debits_pending - p.amount, da.debits_posted,
              da.credits_pending, da.credits_posted⟩ : Quad) =
              applyDelta (pendingAmount (s.transfers ++
                [{ t with amount := t.amount, timestamp := s.nextTs }]))
                t.debit_account_id
                { t with amount := t.amount, timestamp := s.nextTs }
                da.quad := by
            simp [applyDelta, hP, hPP, hV, hpa, Account.quad]
          have hqc : (⟨ca.debits_pending, ca.debits_posted,
              ca.credits_pending - p.amount, ca.credits_posted⟩ : Quad) =
              applyDelta (pendingAmount (s.transfers ++
                [{ t with amount := t.amount, timestamp := s.nextTs }]))
                t.credit_account_id
                { t with amount := t.amount, timestamp := s.nextTs }
                ca.quad := by
            simp [applyDelta, hP, hPP, hV, hpa, Ne.symm hneq, Account.quad]
          have hA : (t.amount = 0 && !(t.postPending || t.voidPending ||
              t.balancingDebit || t.balancingCredit)) = false := by
            simp [hv]
          refine StoreInv_resolved_update _ ?_
          exact StoreInv_commitTransfer
            ⟨da.debits_pending - p.amount, da.debits_posted,
             da.credits_pending, da.credits_posted⟩
            ⟨ca.debits_pending, ca.debits_posted,
             ca.credits_pending - p.amount, ca.credits_posted⟩
            inv hda hca hneq hld hlc hnone htid htd0 htc0 htl0 htcd0
            hA hexcl
            (fun _ => ⟨p, lookup_transfer_mem hlookp,
              lookup_transfer_some_id hlookp⟩)
            hqd hqc
        · -- single phase
          have hvf : t.voidPending = false := by
            revert hv; cases t.voidPending <;> simp
          rw [hvf] at hr
          simp only [Bool.false_eq_true, if_false] at hr
          obtain ⟨amt, hamt, _, _, hcommit⟩ := applySinglePhase_ok hr.symm
          rw [hcommit]
          have hP : ({ t with amount := amt, timestamp := s.nextTs }
              : Transfer).pending = false := hpf
          have hPP : ({ t with amount := amt, timestamp := s.nextTs }
              : Transfer).postPending = false := hppf
          have hV : ({ t with amount := amt, timestamp := s.nextTs }
              : Transfer).voidPending = false := hvf
          have hqd : (⟨da.debits_pending, da.debits_posted + amt,
              da.credits_pending, da.credits_posted⟩ : Quad) =
              applyDelta (pendingAmount (s.transfers ++
                [{ t with amount := amt, timestamp := s.nextTs }]))
                t.debit_account_id
                { t with amount := amt, timestamp := s.nextTs } da.quad := by
            simp [applyDelta, hP, hPP, hV, Account.quad]
          have hqc : (⟨ca.debits_pending, ca.debits_posted,
              ca.credits_pending, ca.credits_posted + amt⟩ : Quad) =
              applyDelta (pendingAmount (s.transfers ++
                [{ t with amount := amt, timestamp := s.nextTs }]))
                t.credit_account_id
                { t with amount := amt, timestamp := s.nextTs } ca.quad := by
            simp [applyDelta, hP, hPP, hV, Ne.symm hneq, Account.quad]
          have hA : (amt = 0 && !(t.postPending || t.voidPending ||
              t.balancingDebit || t.balancingCredit)) = false := by
            rcases hbd : t.balancingDebit with _ | _
            · rcases hbc : t.balancingCredit with _ | _
              · have he : amt = t.amount := hamt hbd hbc
                rw [he]
                simpa [hbd, hbc] using hAmt
              · simp [hbc]
            · simp [hbd]
          exact StoreInv_commitTransfer
            ⟨da.debits_pending, da.debits_posted + amt,
             da.credits_pending, da.credits_posted⟩
            ⟨ca.debits_pending, ca.debits_posted,
             ca.credits_pending, ca.credits_posted + amt⟩
            inv hda hca hneq hld hlc hnone htid htd0 htc0 htl0 htcd0
            hA hexcl
            (fun hcon => by
              rcases hcon with hcc | hcc
              · rw [hppf] at hcc; exact Bool.noConfusion hcc
              · rw [hvf] at hcc; exact Bool.noConfusion hcc)
            hqd hqc

/-- A successful chain run is a sequence of successful steps, so any
per-step invariant carries over. -/
theorem StoreInv_chainApply (step : α → Store → Nat × Store)
    (hstep : ∀ (x : α) (u : Store), StoreInv u → StoreInv (step x u).2) :
    ∀ (xs : List α) (s s' : Store), StoreInv s →
      chainApply step xs s = .ok s' → StoreInv s'
  | [], s, s', inv, h => by
      unfold chainApply at h
      injection h with h
      rw [← h]
      exact inv
  | x :: xs, s, s', inv, h => by
      unfold chainApply at h
      by_cases hok : (step x s).1 = Code.OK
      · rw [if_pos hok] at h
        rcases hrec : chainApply step xs (step x s).2 with e | u
        · rcases e with ⟨i, c⟩
          rw [hrec] at h
          exact Except.noConfusion h
        · rw [hrec] at h
          injection h with h
          rw [← h]
          exact StoreInv_chainApply step hstep xs (step x s).2 u
            (hstep x s inv) hrec
      · rw [if_neg hok] at h
        exact Except.noConfusion h

/-- `runChain` preserves the invariant: it either flushes a successful
chain or returns the untouched pre-chain store. -/
theorem StoreInv_runChain (step : α → Store → Nat × Store)
    (hstep : ∀ (x : α) (u : Store), StoreInv u → StoreInv (step x u).2)
    (xs : List α) (s : Store) (inv : StoreInv s) :
    StoreInv (runChain step xs s).2 := by
  unfold runChain
  rcases hres : chainApply step xs s with e | s2
  · rcases e with ⟨i, c⟩
    exact inv
  · exact StoreInv_chainApply step hstep xs s s2 inv hres

/-- The chain fold of `runBatch` preserves the invariant of the running
store. -/
theorem StoreInv_foldChains (isLinked : α → Bool)
    (step : α → Store → Nat × Store)
    (hstep : ∀ (x : α) (u : Store), StoreInv u → StoreInv (step x u).2) :
    ∀ (cs : List (List α)) (acc : List Nat × Store), StoreInv acc.2 →
      StoreInv ((cs.foldl
        (fun acc c =>
          if chainOpen isLinked c then
            (acc.1 ++ c.map (fun _ => Code.LINKED_EVENT_CHAIN_OPEN), acc.2)
          else
            let r := runChain step c acc.2
            (acc.1 ++ r.1, r.2)) acc).2)
  | [], acc, inv => by simpa using inv
  | c :: cs, acc, inv => by
      rw [List.foldl_cons]
      apply StoreInv_foldChains isLinked step hstep cs
      by_cases ho : chainOpen isLinked c = true
      · rw [if_pos ho]
        exact inv
      · rw [if_neg ho]
        exact StoreInv_runChain step hstep c acc.2 inv

/-- `runBatch` preserves the invariant. -/
theorem StoreInv_runBatch (isLinked : α → Bool)
    (step : α → Store → Nat × Store)
    (hstep : ∀ (x : α) (u : Store), StoreInv u → StoreInv (step x u).2)
    (xs : List α) (s : Store) (inv : StoreInv s) :
    StoreInv (runBatch isLinked step xs s).2 := by
  unfold runBatch
  exact StoreInv_foldChains isLinked step hstep (splitChains isLinked xs)
    ([], s) inv

/-- Every operation of the mutating surface preserves the invariant. -/
theorem StoreInv_applyOp (op : Op) {s : Store} (inv : StoreInv s) :
    StoreInv (applyOp op s) := by
  cases op with
  | ca a => exact StoreInv_create_account inv
  | ct t => exact StoreInv_create_transfer inv
  | las xs =>
      exact StoreInv_runBatch Account.linked create_account
        (fun x u i => StoreInv_create_account i) xs s inv
  | lts xs =>
      exact StoreInv_runBatch Transfer.linked create_transfer
        (fun x u i => StoreInv_create_transfer i) xs s inv

/-- Operation sequences preserve the invariant. -/
theorem StoreInv_applyOps :
    ∀ (ops : List Op) (s : Store), StoreInv s → StoreInv (applyOps ops s)
  | [], _, inv => inv
  | op :: ops, s, inv =>
      StoreInv_applyOps ops (applyOp op s) (StoreInv_applyOp op inv)

/-- Every reachable store satisfies the structural invariant. -/
theorem StoreInv_reachable {s : Store} (h : Reachable s) : StoreInv s := by
  obtain ⟨ops, h⟩ := h
  rw [h]
  exact StoreInv_applyOps ops Store.empty StoreInv_empty

/-! ### Concrete fixtures for the witness instances -/

/-- C1: a linked chain with a failing record commits nothing: the batch
returns the pre-batch store unchanged, the offender reports its native
code and every other chain record reports `LINKED_EVENT_FAILED`, for both
`create_linked_transfers` and `create_linked_accounts`. -/
theorem claim_C1_linked_rollback (s : Store) :
    (∀ (xs : List Transfer) (i : Nat) (si : Store) (hi : i < xs.length)
      (c : Nat),
      closedChain Transfer.linked xs = true →
      chainPrefix create_transfer (xs.take i) s = some si →
      (create_transfer (xs.get ⟨i, hi⟩) si).1 = c → c ≠ Code.OK →
      create_linked_transfers xs s =
        ((List.range xs.length).map
          (fun j => if j = i then c else Code.LINKED_EVENT_FAILED), s)) ∧
    (∀ (xs : List Account) (i : Nat) (si : Store) (hi : i < xs.length)
      (c : Nat),
      closedChain Account.linked xs = true →
      chainPrefix create_account (xs.take i) s = some si →
      (create_account (xs.get ⟨i, hi⟩) si).1 = c → c ≠ Code.OK →
      create_linked_accounts xs s =
        ((List.range xs.length).map
          (fun j => if j = i then c else Code.LINKED_EVENT_FAILED), s)) := by
  constructor
  · intro xs i si hi c hcl hpre hc hne
    unfold create_linked_transfers
    rw [runBatch_closed Transfer.linked create_transfer xs s hcl]
    exact runChain_fail create_transfer xs i s si hi c hpre hc hne
  · intro xs i si hi c hcl hpre hc hne
    unfold create_linked_accounts
    rw [runBatch_closed Account.linked create_account xs s hcl]
    exact runChain_fail create_account xs i s si hi c hpre hc hne

theorem claim_C1_witness :
    create_linked_transfers [wT1, wT2] wBase =
      ((List.range [wT1, wT2].length).map
        (fun j => if j = 1 then Code.ID_MUST_NOT_BE_ZERO
          else Code.LINKED_EVENT_FAILED), wBase) ∧
    create_linked_accounts [wA1, wA2] wBase =
      ((List.range [wA1, wA2].length).map
        (fun j => if j = 1 then Code.ID_MUST_NOT_BE_ZERO
          else Code.LINKED_EVENT_FAILED), wBase) :=
  ⟨(claim_C1_linked_rollback wBase).1 [wT1, wT2] 1
      (create_transfer wT1 wBase).2 (by decide) Code.ID_MUST_NOT_BE_ZERO
      (by decide) rfl rfl (by decide),
   (claim_C1_linked_rollback wBase).2 [wA1, wA2] 1
      (create_account wA1 wBase).2 (by decide) Code.ID_MUST_NOT_BE_ZERO
      (by decide) rfl rfl (by decide)⟩

/-- C2: for a successful single-phase transfer with neither balancing flag
set, the debit account's `debits_posted` and the credit account's
`credits_posted` each grow by exactly the transfer amount and all pending
balances are unchanged.  (Amended: with `BALANCING_DEBIT`/`BALANCING_CREDIT`
set, the posted amount is the clamped amount, which can differ from the
submitted amount — see the counterexample.) -/
theorem claim_C2_single_phase {t : Transfer} {s s' : Store} {da ca : Account}
    (hok : create_transfer t s = (Code.OK, s'))
    (hp : t.pending = false) (hpp : t.postPending = false)
    (hv : t.voidPending = false)
    (hbd : t.balancingDebit = false) (hbc : t.balancingCredit = false)
    (hda : lookup_account t.debit_account_id s = some da)
    (hca : lookup_account t.credit_account_id s = some ca) :
    ∃ da' ca',
      lookup_account t.debit_account_id s' = some da' ∧
      lookup_account t.credit_account_id s' = some ca' ∧
      da'.debits_posted = da.debits_posted + t.amount ∧
      ca'.credits_posted = ca.credits_posted + t.amount ∧
      da'.debits_pending = da.debits_pending ∧
      da'.credits_pending = da.credits_pending ∧
      ca'.debits_pending = ca.debits_pending ∧
      ca'.credits_pending = ca.credits_pending := by
  obtain ⟨da0, ca0, amt, hda0, hca0, hnone, hneq, hld, hlc, hamt, hs'⟩ :=
    create_transfer_ok_single hok hp hpp hv
  have hdd : da = da0 := by
    have := hda.symm.trans hda0
    injection this
  have hcc : ca = ca0 := by
    have := hca.symm.trans hca0
    injection this
  subst hdd hcc
  have hamt' : amt = t.amount := hamt hbd hbc
  subst hamt'
  have hdid := lookup_account_some_id hda
  have hcid := lookup_account_some_id hca
  subst hs'
  rw [← hdid, ← hcid]
  refine ⟨{ da with debits_posted := da.debits_posted + t.amount },
          { ca with credits_posted := ca.credits_posted + t.amount },
          ?_, ?_, rfl, rfl, rfl, rfl, rfl, rfl⟩
  · exact lookup_account_commitTransfer_debit _
      { da with debits_posted := da.debits_posted + t.amount }
      { ca with credits_posted := ca.credits_posted + t.amount } s
      (show da.id ≠ ca.id by rw [hdid, hcid]; exact hneq)
  · exact lookup_account_commitTransfer_credit _
      { da with debits_posted := da.debits_posted + t.amount }
      { ca with credits_posted := ca.credits_posted + t.amount } s

/-- C3: a pending transfer of amount `a` between accounts with no prior
pending balance parks `a` on both pending columns leaving posted columns
untouched, and a following full `POST_PENDING` of the same amount clears
the pending columns and adds `a` to both posted columns. -/
theorem claim_C3_pending_then_post {p q : Transfer} {s s₁ s₂ : Store}
    {da ca : Account}
    (hda : lookup_account p.debit_account_id s = some da)
    (hca : lookup_account p.credit_account_id s = some ca)
    (hdp0 : da.debits_pending = 0) (hcp0 : ca.credits_pending = 0)
    (h1 : create_transfer p s = (Code.OK, s₁)) (hp : p.pending = true)
    (h2 : create_transfer q s₁ = (Code.OK, s₂))
    (hq1 : q.pending = false) (hq2 : q.postPending = true)
    (hpid : q.pending_id = p.id) (hamt : q.amount = p.amount) :
    (∃ da₁ ca₁,
      lookup_account p.debit_account_id s₁ = some da₁ ∧
      lookup_account p.credit_account_id s₁ = some ca₁ ∧
      da₁.debits_pending = p.amount ∧
      da₁.debits_posted = da.debits_posted ∧
      ca₁.credits_pending = p.amount ∧
      ca₁.credits_posted = ca.credits_posted) ∧
    (∃ da₂ ca₂,
      lookup_account p.debit_account_id s₂ = some da₂ ∧
      lookup_account p.credit_account_id s₂ = some ca₂ ∧
      da₂.debits_pending = 0 ∧
      da₂.debits_posted = da.debits_posted + p.amount ∧
      ca₂.credits_pending = 0 ∧
      ca₂.credits_posted = ca.credits_posted + p.amount) := by
  obtain ⟨da0, ca0, hda0, hca0, hnone, hneq, _, _, hs₁⟩ :=
    create_transfer_ok_pending h1 hp
  have hdd : da = da0 := by
    have := hda.symm.trans hda0
    injection this
  have hcc : ca = ca0 := by
    have := hca.symm.trans hca0
    injection this
  subst hdd hcc
  have hdid := lookup_account_some_id hda
  have hcid := lookup_account_some_id hca
  have hneid : da.id ≠ ca.id := by rw [hdid, hcid]; exact hneq
  subst hs₁
  have hda1 : lookup_account p.debit_account_id
      (commitTransfer { p with timestamp := s.nextTs }
        { da with debits_pending := da.debits_pending + p.amount }
        { ca with credits_pending := ca.credits_pending + p.amount } s) =
      some { da with debits_pending := da.debits_pending + p.amount } :=
    lookup_account_commitTransfer_debit' _ _ _ s hneid hdid
  have hca1 : lookup_account p.credit_account_id
      (commitTransfer { p with timestamp := s.nextTs }
        { da with debits_pending := da.debits_pending + p.amount }
        { ca with credits_pending := ca.credits_pending + p.amount } s) =
      some { ca with credits_pending := ca.credits_pending + p.amount } :=
    lookup_account_commitTransfer_credit' _ _ _ s hcid
  have hlookP : lookup_transfer p.id
      (commitTransfer { p with timestamp := s.nextTs }
        { da with debits_pending := da.debits_pending + p.amount }
        { ca with credits_pending := ca.credits_pending + p.amount } s) =
      some { p with timestamp := s.nextTs } :=
    lookup_transfer_commitTransfer_new' _ _ _ rfl hnone
  constructor
  · exact ⟨_, _, hda1, hca1, by show da.debits_pending + p.amount = p.amount; omega,
      rfl, by show ca.credits_pending + p.amount = p.amount; omega, rfl⟩
  obtain ⟨db, cb, pr, postAmt, hdb, hcb, _, hneqv, hlookq, hqpend, hqd, hqc,
    hres, hle, hpostAmt, hs₂⟩ := create_transfer_ok_post h2 hq1 hq2
  rw [hpid] at hlookq
  have hqr : pr = { p with timestamp := s.nextTs } := by
    have := hlookq.symm.trans hlookP
    injection this
  subst hqr
  have hsp : ({ p with timestamp := s.nextTs } : Transfer).amount = p.amount :=
    rfl
  have hpa : postAmt = p.amount := by
    rw [hpostAmt]
    split
    · omega
    · omega
  have hvd : q.debit_account_id = p.debit_account_id := by
    rw [← hqd]
  have hvc : q.credit_account_id = p.credit_account_id := by
    rw [← hqc]
  rw [hvd] at hdb
  rw [hvc] at hcb
  have hdb1 : db = { da with debits_pending := da.debits_pending + p.amount } := by
    have := hdb.symm.trans hda1
    injection this
  have hcb1 : cb = { ca with credits_pending := ca.credits_pending + p.amount } := by
    have := hcb.symm.trans hca1
    injection this
  subst hdb1 hcb1
  refine ⟨{ da with
      debits_pending := da.debits_pending + p.amount - p.amount,
      debits_posted := da.debits_posted + postAmt },
    { ca with
      credits_pending := ca.credits_pending + p.amount - p.amount,
      credits_posted := ca.credits_posted + postAmt },
    ?_, ?_, ?_, ?_, ?_, ?_⟩
  · rw [hs₂, lookup_account_resolved_update]
    exact lookup_account_commitTransfer_debit' _
      { da with debits_pending := da.debits_pending + p.amount - p.amount,
                debits_posted := da.debits_posted + postAmt }
      { ca with credits_pending := ca.credits_pending + p.amount - p.amount,
                credits_posted := ca.credits_posted + postAmt }
      _ hneid hdid
  · rw [hs₂, lookup_account_resolved_update]
    exact lookup_account_commitTransfer_credit' _
      { da with debits_pending := da.debits_pending + p.amount - p.amount,
                debits_posted := da.debits_posted + postAmt }
      { ca with credits_pending := ca.credits_pending + p.amount - p.amount,
                credits_posted := ca.credits_posted + postAmt }
      _ hcid
  · show da.debits_pending + p.amount - p.amount = 0
    omega
  · show da.debits_posted + postAmt = da.debits_posted + p.amount
    omega
  · show ca.credits_pending + p.amount - p.amount = 0
    omega
  · show ca.credits_posted + postAmt = ca.credits_posted + p.amount
    omega

/-- C4: creating a pending transfer and then voiding it restores all four
balances of both accounts; the two-step sequence is the identity on the
account quads. -/
theorem claim_C4_pending_then_void {p v : Transfer} {s s₁ s₂ : Store}
    {da ca : Account}
    (h1 : create_transfer p s = (Code.OK, s₁)) (hp : p.pending = true)
    (h2 : create_transfer v s₁ = (Code.OK, s₂))
    (hv1 : v.pending = false) (hv2 : v.postPending = false)
    (hv3 : v.voidPending = true) (hpid : v.pending_id = p.id)
    (hda : lookup_account p.debit_account_id s = some da)
    (hca : lookup_account p.credit_account_id s = some ca) :
    ∃ da' ca',
      lookup_account p.debit_account_id s₂ = some da' ∧
      lookup_account p.credit_account_id s₂ = some ca' ∧
      da'.quad = da.quad ∧ ca'.quad = ca.quad := by
  obtain ⟨da0, ca0, hda0, hca0, hnone, hneq, _, _, hs₁⟩ :=
    create_transfer_ok_pending h1 hp
  have hdd : da = da0 := by
    have := hda.symm.trans hda0
    injection this
  have hcc : ca = ca0 := by
    have := hca.symm.trans hca0
    injection this
  subst hdd hcc
  have hdid := lookup_account_some_id hda
  have hcid := lookup_account_some_id hca
  have hneid : da.id ≠ ca.id := by rw [hdid, hcid]; exact hneq
  subst hs₁
  -- lookups in the intermediate store
  have hda1 : lookup_account p.debit_account_id
      (commitTransfer { p with timestamp := s.nextTs }
        { da with debits_pending := da.debits_pending + p.amount }
        { ca with credits_pending := ca.credits_pending + p.amount } s) =
      some { da with debits_pending := da.debits_pending + p.amount } :=
    lookup_account_commitTransfer_debit' _ _ _ s hneid hdid
  have hca1 : lookup_account p.credit_account_id
      (commitTransfer { p with timestamp := s.nextTs }
        { da with debits_pending := da.debits_pending + p.amount }
        { ca with credits_pending := ca.credits_pending + p.amount } s) =
      some { ca with credits_pending := ca.credits_pending + p.amount } :=
    lookup_account_commitTransfer_credit' _ _ _ s hcid
  have hlookP : lookup_transfer p.id
      (commitTransfer { p with timestamp := s.nextTs }
        { da with debits_pending := da.debits_pending + p.amount }
        { ca with credits_pending := ca.credits_pending + p.amount } s) =
      some { p with timestamp := s.nextTs } :=
    lookup_transfer_commitTransfer_new' _ _ _ rfl hnone
  obtain ⟨db, cb, q, hdb, hcb, _, hneqv, hlookq, hqpend, hqd, hqc, hres,
    hamt, hs₂⟩ := create_transfer_ok_void h2 hv1 hv2 hv3
  rw [hpid] at hlookq
  have hq : q = { p with timestamp := s.nextTs } := by
    have := hlookq.symm.trans hlookP
    injection this
  subst hq
  have hvd : v.debit_account_id = p.debit_account_id := by
    rw [← hqd]
  have hvc : v.credit_account_id = p.credit_account_id := by
    rw [← hqc]
  rw [hvd] at hdb
  rw [hvc] at hcb
  have hdb1 : db = { da with debits_pending := da.debits_pending + p.amount } := by
    have := hdb.symm.trans hda1
    injection this
  have hcb1 : cb = { ca with credits_pending := ca.credits_pending + p.amount } := by
    have := hcb.symm.trans hca1
    injection this
  subst hdb1 hcb1
  refine ⟨{ da with debits_pending := da.debits_pending + p.amount - p.amount },
          { ca with credits_pending := ca.credits_pending + p.amount - p.amount },
          ?_, ?_, ?_, ?_⟩
  · rw [hs₂, lookup_account_resolved_update]
    exact lookup_account_commitTransfer_debit' _
      { da with debits_pending := da.debits_pending + p.amount - p.amount }
      { ca with credits_pending := ca.credits_pending + p.amount - p.amount }
      _ hneid hdid
  · rw [hs₂, lookup_account_resolved_update]
    exact lookup_account_commitTransfer_credit' _
      { da with debits_pending := da.debits_pending + p.amount - p.amount }
      { ca with credits_pending := ca.credits_pending + p.amount - p.amount }
      _ hcid
  · simp only [Account.quad, Quad.mk.injEq, and_true, true_and]
    omega
  · simp only [Account.quad, Quad.mk.injEq, and_true, true_and]
    omega

theorem claim_C2_counterexample :
    (create_transfer cT wBase).1 = Code.OK ∧
    cT.pending = false ∧ cT.postPending = false ∧ cT.voidPending = false ∧
    lookup_account cT.debit_account_id wBase = some wDa ∧
    lookup_account cT.debit_account_id (create_transfer cT wBase).2 =
      some wDa ∧
    wDa.debits_posted ≠ wDa.debits_posted + cT.amount := by decide

theorem claim_C2_witness :
    ∃ da' ca',
      lookup_account wST.debit_account_id (create_transfer wST wBase).2 =
        some da' ∧
      lookup_account wST.credit_account_id (create_transfer wST wBase).2 =
        some ca' ∧
      da'.debits_posted = wDa.debits_posted + wST.amount ∧
      ca'.credits_posted = wCa.credits_posted + wST.amount ∧
      da'.debits_pending = wDa.debits_pending ∧
      da'.credits_pending = wDa.credits_pending ∧
      ca'.debits_pending = wCa.debits_pending ∧
      ca'.credits_pending = wCa.credits_pending :=
  @claim_C2_single_phase wST wBase (create_transfer wST wBase).2 wDa wCa
    rfl rfl rfl rfl rfl rfl (by decide) (by decide)

theorem claim_C3_witness :
    (∃ da₁ ca₁,
      lookup_account wPT.debit_account_id (create_transfer wPT wBase).2 =
        some da₁ ∧
      lookup_account wPT.credit_account_id (create_transfer wPT wBase).2 =
        some ca₁ ∧
      da₁.debits_pending = wPT.amount ∧
      da₁.debits_posted = wDa.debits_posted ∧
      ca₁.credits_pending = wPT.amount ∧
      ca₁.credits_posted = wCa.credits_posted) ∧
    (∃ da₂ ca₂,
      lookup_account wPT.debit_account_id
        (create_transfer wQT (create_transfer wPT wBase).2).2 = some da₂ ∧
      lookup_account wPT.credit_account_id
        (create_transfer wQT (create_transfer wPT wBase).2).2 = some ca₂ ∧
      da₂.debits_pending = 0 ∧
      da₂.debits_posted = wDa.debits_posted + wPT.amount ∧
      ca₂.credits_pending = 0 ∧
      ca₂.credits_posted = wCa.credits_posted + wPT.amount) :=
  @claim_C3_pending_then_post wPT wQT wBase (create_transfer wPT wBase).2
    (create_transfer wQT (create_transfer wPT wBase).2).2 wDa wCa
    (by decide) (by decide) rfl rfl rfl rfl rfl rfl rfl rfl rfl

theorem claim_C4_witness :
    ∃ da' ca',
      lookup_account wPT.debit_account_id
        (create_transfer wVT (create_transfer wPT wBase).2).2 = some da' ∧
      lookup_account wPT.credit_account_id
        (create_transfer wVT (create_transfer wPT wBase).2).2 = some ca' ∧
      da'.quad = wDa.quad ∧ ca'.quad = wCa.quad :=
  @claim_C4_pending_then_void wPT wVT wBase (create_transfer wPT wBase).2
    (create_transfer wVT (create_transfer wPT wBase).2).2 wDa wCa
    rfl rfl rfl rfl rfl rfl rfl (by decide) (by decide)

/-- Per-ledger posted sums split the signed per-account balance sum. -/
theorem ledgerSum_split (L : Nat) : ∀ l : List Account,
    (l.map (balOf L)).sum =
      ((((l.filter (fun a => a.ledger = L)).map
        (fun a => a.debits_posted)).sum : Nat) : Int) -
      ((((l.filter (fun a => a.ledger = L)).map
        (fun a => a.credits_posted)).sum : Nat) : Int)
  | [] => by simp
  | a :: l => by
      have ih := ledgerSum_split L l
      simp only [List.map_cons, List.sum_cons, List.filter_cons]
      by_cases hL : a.ledger = L
      · rw [if_pos (by simpa using hL)]
        simp only [List.map_cons, List.sum_cons, ih]
        unfold balOf
        rw [if_pos hL]
        omega
      · rw [if_neg (by simpa using hL)]
        rw [ih]
        unfold balOf
        rw [if_neg hL]
        omega

/-- The signed ledger difference is the posted-debit sum minus the
posted-credit sum of the ledger's accounts. -/
theorem ledgerDiff_split (L : Nat) (s : Store) :
    ledgerDiff L s = (ledgerDebits L s : Int) - (ledgerCredits L s : Int) := by
  unfold ledgerDiff ledgerDebits ledgerCredits
  rw [ledgerSum_split]

/-- C5: in every reachable store, the sum of `debits_posted` over the
accounts of any ledger equals the sum of `credits_posted` over those
accounts: successful transfers conserve per-ledger posted balances. -/
theorem claim_C5_conservation {s : Store} (h : Reachable s) (L : Nat) :
    ledgerDebits L s = ledgerCredits L s := by
  have hdiff := (StoreInv_reachable h).conserving L
  rw [ledgerDiff_split] at hdiff
  omega

theorem claim_C5_witness : ledgerDebits 1 wS5 = ledgerCredits 1 wS5 :=
  claim_C5_conservation ⟨wOps, rfl⟩ 1

/-- C6: in every reachable store, resubmitting a record whose id is
already stored with identical non-timestamp content returns `EXISTS` and
leaves the store unchanged, for accounts and transfers alike. -/
theorem claim_C6_idempotent_exists {s : Store} (hreach : Reachable s) :
    (∀ a b, lookup_account a.id s = some b → accountMatches a b = true →
      create_account a s = (Code.EXISTS, s)) ∧
    (∀ t u, lookup_transfer t.id s = some u → transferMatches t u = true →
      create_transfer t s = (Code.EXISTS, s)) := by
  have inv := StoreInv_reachable hreach
  constructor
  · intro a b hl hm
    have hm0 := hm
    obtain ⟨hid0, hld0, hcd0, hcf⟩ := inv.accValid b (lookup_account_mem hl)
    unfold accountMatches at hm
    simp only [Bool.and_eq_true, decide_eq_true_eq] at hm
    obtain ⟨⟨⟨⟨⟨⟨⟨⟨⟨⟨hmId, _⟩, _⟩, _⟩, _⟩, _⟩, _⟩, _⟩, hmL⟩, hmCd⟩, hmF⟩ :=
      hm
    have hcfa : (a.debitsMustNotExceedCredits &&
        a.creditsMustNotExceedDebits) = false := by
      unfold Account.debitsMustNotExceedCredits
        Account.creditsMustNotExceedDebits at hcf ⊢
      rw [hmF]
      exact hcf
    unfold create_account
    rw [if_neg (fun h => hid0 (hmId.symm.trans h))]
    rw [if_neg (fun h => hld0 (hmL.symm.trans h))]
    rw [if_neg (fun h => hcd0 (hmCd.symm.trans h))]
    rw [if_neg (by simp [hcfa])]
    rw [hl]
    dsimp only
    rw [if_pos hm0]
  · intro t u hl hm
    have hm0 := hm
    obtain ⟨huid, hud0, huc0, hune, hul0, hucd0, huamt, huexcl⟩ :=
      inv.txValid u (lookup_transfer_mem hl)
    unfold transferMatches at hm
    simp only [Bool.and_eq_true, decide_eq_true_eq] at hm
    obtain ⟨⟨⟨⟨⟨⟨⟨⟨⟨⟨⟨hmId, hmD⟩, hmC⟩, hmA⟩, _⟩, _⟩, _⟩, _⟩, _⟩, hmL⟩,
      hmCd⟩, hmF⟩ := hm
    have hE : create_transferE t s = Except.error Code.EXISTS := by
      unfold create_transferE
      rw [if_neg (fun h => huid (hmId.symm.trans h))]
      rw [if_neg (fun h => hud0 (hmD.symm.trans h))]
      rw [if_neg (fun h => huc0 (hmC.symm.trans h))]
      rw [if_neg (fun h => hune (hmD.symm.trans (h.trans hmC)))]
      rw [if_neg (fun h => hul0 (hmL.symm.trans h))]
      rw [if_neg (fun h => hucd0 (hmCd.symm.trans h))]
      have hcnd : (t.amount = 0 && !(t.postPending || t.voidPending ||
          t.balancingDebit || t.balancingCredit)) = false := by
        unfold Transfer.postPending Transfer.voidPending
          Transfer.balancingDebit Transfer.balancingCredit at huamt ⊢
        rw [hmA, hmF]
        exact huamt
      rw [if_neg (by rw [hcnd]; simp)]
      have hexA : transferFlagsExclusive t = true := by
        unfold transferFlagsExclusive Transfer.pending Transfer.postPending
          Transfer.voidPending at huexcl ⊢
        rw [hmF]
        exact huexcl
      rw [if_neg (not_not_intro hexA)]
      rw [hl]
      dsimp only
      rw [if_pos hm0]
    unfold create_transfer
    rw [hE]

theorem claim_C6_witness :
    create_account (wAccount 1 1 0) wBase = (Code.EXISTS, wBase) ∧
    create_transfer wST wS5 = (Code.EXISTS, wS5) :=
  ⟨(claim_C6_idempotent_exists ⟨wOpsAcc, rfl⟩).1
      (wAccount 1 1 0) wDa (by decide) (by decide),
   (claim_C6_idempotent_exists ⟨wOps, rfl⟩).2
      wST { wST with timestamp := 3 } (by decide) (by decide)⟩

/-- C7: a single-phase transfer whose debit account carries
`DEBITS_MUST_NOT_EXCEED_CREDITS` and whose amount would push
`debits_posted + debits_pending` beyond `credits_posted` fails with
`EXCEEDS_CREDITS` leaving the store unchanged; symmetrically a credit
account with `CREDITS_MUST_NOT_EXCEED_DEBITS` yields `EXCEEDS_DEBITS`. -/
theorem claim_C7_balance_limits {t : Transfer} {s : Store} {da ca : Account}
    (hp : t.pending = false) (hpp : t.postPending = false)
    (hv : t.voidPending = false)
    (hbd : t.balancingDebit = false) (hbc : t.balancingCredit = false)
    (htid : t.id ≠ 0) (htd0 : t.debit_account_id ≠ 0)
    (htc0 : t.credit_account_id ≠ 0)
    (hneq : t.debit_account_id ≠ t.credit_account_id)
    (htl0 : t.ledger ≠ 0) (htcd0 : t.code ≠ 0) (ha0 : t.amount ≠ 0)
    (hexcl : transferFlagsExclusive t = true)
    (hnone : lookup_transfer t.id s = none)
    (hda : lookup_account t.debit_account_id s = some da)
    (hca : lookup_account t.credit_account_id s = some ca)
    (hld : da.ledger = t.ledger) (hlc : ca.ledger = t.ledger)
    (hofd : da.debits_posted + t.amount < U128)
    (hofc : ca.credits_posted + t.amount < U128) :
    (da.debitsMustNotExceedCredits = true →
      da.credits_posted < da.debits_posted + t.amount + da.debits_pending →
      create_transfer t s = (Code.EXCEEDS_CREDITS, s)) ∧
    (da.debitsMustNotExceedCredits = false →
      ca.creditsMustNotExceedDebits = true →
      ca.debits_posted < ca.credits_posted + t.amount + ca.credits_pending →
      create_transfer t s = (Code.EXCEEDS_DEBITS, s)) := by
  have hstep : create_transferE t s = applySinglePhase t da ca s := by
    unfold create_transferE
    rw [if_neg htid, if_neg htd0, if_neg htc0, if_neg hneq, if_neg htl0,
      if_neg htcd0]
    rw [if_neg (by simp [ha0])]
    rw [if_neg (not_not_intro hexcl)]
    rw [hnone]
    dsimp only
    rw [hda]
    dsimp only
    rw [hca]
    dsimp only
    rw [if_neg (by simp [hld, hlc])]
    rw [hp, hpp, hv]
    simp only [Bool.false_eq_true, if_false]
  constructor
  · intro hflag hviol
    have hsp : applySinglePhase t da ca s =
        Except.error Code.EXCEEDS_CREDITS := by
      unfold applySinglePhase
      simp only []
      rw [hbd, hbc]
      simp only [Bool.false_eq_true, if_false]
      rw [if_neg (by omega)]
      rw [if_neg (by omega)]
      rw [if_pos (by simp [hflag]; omega)]
    unfold create_transfer
    rw [hstep, hsp]
  · intro hflagd hflag hviol
    have hsp : applySinglePhase t da ca s =
        Except.error Code.EXCEEDS_DEBITS := by
      unfold applySinglePhase
      simp only []
      rw [hbd, hbc]
      simp only [Bool.false_eq_true, if_false]
      rw [if_neg (by omega)]
      rw [if_neg (by omega)]
      rw [if_neg (by simp [hflagd])]
      rw [if_pos (by simp [hflag]; omega)]
    unfold create_transfer
    rw [hstep, hsp]

theorem claim_C7_witness :
    create_transfer (wTransfer 50 7 8 10 0 1 0) wS7 =
      (Code.EXCEEDS_CREDITS, wS7) ∧
    create_transfer (wTransfer 51 8 9 10 0 1 0) wS7 =
      (Code.EXCEEDS_DEBITS, wS7) :=
  ⟨(@claim_C7_balance_limits (wTransfer 50 7 8 10 0 1 0) wS7
      ((wAccount 7 1 2).initAt 1) ((wAccount 8 1 0).initAt 2)
      rfl rfl rfl rfl rfl (by decide) (by decide) (by decide) (by decide)
      (by decide) (by decide) (by decide) (by decide) (by decide)
      (by decide) (by decide) (by decide) (by decide) (by decide)
      (by decide)).1 rfl (by decide),
   (@claim_C7_balance_limits (wTransfer 51 8 9 10 0 1 0) wS7
      ((wAccount 8 1 0).initAt 2) ((wAccount 9 1 4).initAt 3)
      rfl rfl rfl rfl rfl (by decide) (by decide) (by decide) (by decide)
      (by decide) (by decide) (by decide) (by decide) (by decide)
      (by decide) (by decide) (by decide) (by decide) (by decide)
      (by decide)).2 rfl rfl (by decide)⟩

theorem tsExtend_refl (u : Store) : tsExtend u u :=
  ⟨le_refl _, fun _ hz => Or.inl hz⟩

theorem tsExtend_trans {u v w : Store} (h1 : tsExtend u v)
    (h2 : tsExtend v w) : tsExtend u w := by
  refine ⟨le_trans h1.1 h2.1, ?_⟩
  intro z hz
  rcases h2.2 z hz with h | h
  · exact h1.2 z h
  · exact Or.inr (le_trans h1.1 h)

/-- Record timestamps after a commit: an old one, or the stored
transfer's. -/
theorem allTs_commitTransfer (stored : Transfer) (da' ca' : Account)
    (u : Store)
    (hd : ∃ b ∈ u.accounts, da'.timestamp = b.timestamp)
    (hc : ∃ b ∈ u.accounts, ca'.timestamp = b.timestamp) :
    ∀ z ∈ allTs (commitTransfer stored da' ca' u),
      z ∈ allTs u ∨ z = stored.timestamp := by
  intro z hz
  unfold allTs at hz ⊢
  simp only [commitTransfer] at hz
  rcases List.mem_append.mp hz with h | h
  · obtain ⟨x, hx, hxz⟩ := List.mem_map.mp h
    have hmem : x = ca' ∨ x = da' ∨ x ∈ u.accounts := by
      rcases mem_putAccount ca' (putAccount da' u.accounts) x hx with h2 | h2
      · exact Or.inl h2
      · rcases mem_putAccount da' u.accounts x h2 with h3 | h3
        · exact Or.inr (Or.inl h3)
        · exact Or.inr (Or.inr h3)
    rcases hmem with h2 | h2 | h2
    · obtain ⟨b, hb, hbts⟩ := hc
      subst h2
      refine Or.inl (List.mem_append_left _ (List.mem_map.mpr ⟨b, hb, ?_⟩))
      rw [← hxz, hbts]
    · obtain ⟨b, hb, hbts⟩ := hd
      subst h2
      refine Or.inl (List.mem_append_left _ (List.mem_map.mpr ⟨b, hb, ?_⟩))
      rw [← hxz, hbts]
    · exact Or.inl (List.mem_append_left _ (List.mem_map.mpr ⟨x, h2, hxz⟩))
  · rw [List.map_append] at h
    rcases List.mem_append.mp h with h2 | h2
    · exact Or.inl (List.mem_append_right _ h2)
    · have : z = stored.timestamp := by simpa using h2
      exact Or.inr this

theorem tsExtend_create_account (a : Account) (u : Store) :
    tsExtend u (create_account a u).2 := by
  rcases @create_account_cases a u with hc | hs
  · have hok : create_account a u = (Code.OK, (create_account a u).2) := by
      rw [← hc]
    obtain ⟨_, _, _, _, _, hs'⟩ := create_account_ok hok
    rw [hs']
    constructor
    · exact Nat.le_succ _
    · intro z hz
      unfold allTs at hz ⊢
      rcases List.mem_append.mp hz with h | h
      · rcases List.mem_map.mp h with ⟨x, hx, hxz⟩
        rcases List.mem_append.mp hx with h2 | h2
        · exact Or.inl
            (List.mem_append_left _ (List.mem_map.mpr ⟨x, h2, hxz⟩))
        · have hxe : x = a.initAt u.nextTs := List.mem_singleton.mp h2
          subst hxe
          exact Or.inr (by rw [← hxz]; exact le_refl _)
      · exact Or.inl (List.mem_append_right _ h)
  · rw [hs]
    exact tsExtend_refl u

theorem tsExtend_create_transfer (t : Transfer) (u : Store) :
    tsExtend u (create_transfer t u).2 := by
  rcases hE : create_transferE t u with e | s2
  · have hval : create_transfer t u = (e, u) := by
      unfold create_transfer
      rw [hE]
    rw [hval]
    exact tsExtend_refl u
  · have hok : create_transfer t u = (Code.OK, s2) := by
      unfold create_transfer
      rw [hE]
    have hsnd : (create_transfer t u).2 = s2 := by rw [hok]
    rw [hsnd]
    rcases create_transferE_shape hE with ⟨e, he, _⟩ | hsh
    · exact Except.noConfusion he
    obtain ⟨_, hneq, hnone, da, ca, hda, hca, hld, hlc, hr⟩ := hsh
    unfold dispatchTransfer at hr
    have hdmem := lookup_account_mem hda
    have hcmem := lookup_account_mem hca
    have hgen : ∀ (stored : Transfer) (da' ca' : Account),
        stored.timestamp = u.nextTs →
        da'.timestamp = da.timestamp → ca'.timestamp = ca.timestamp →
        tsExtend u (commitTransfer stored da' ca' u) := by
      intro stored da' ca' hts hdts hcts
      constructor
      · show u.nextTs ≤ u.nextTs + 1
        exact Nat.le_succ _
      · intro z hz
        rcases allTs_commitTransfer stored da' ca' u
          ⟨da, hdmem, hdts⟩ ⟨ca, hcmem, hcts⟩ z hz with h | h
        · exact Or.inl h
        · exact Or.inr (by rw [h, hts])
    by_cases hp : t.pending = true
    · rw [hp] at hr
      simp only [if_true] at hr
      obtain ⟨_, _, _, hcommit⟩ := applyPending_ok hr.symm
      rw [hcommit]
      exact hgen _ _ _ rfl rfl rfl
    · have hpf : t.pending = false := by
        revert hp; cases t.pending <;> simp
      rw [hpf] at hr
      simp only [Bool.false_eq_true, if_false] at hr
      by_cases hpp : t.postPending = true
      · rw [hpp] at hr
        simp only [if_true] at hr
        obtain ⟨p, postAmt, _, _, _, _, _, hcommit⟩ :=
          applyPostPending_ok hr.symm
        rw [hcommit]
        exact hgen _ _ _ rfl rfl rfl
      · have hppf : t.postPending = false := by
          revert hpp; cases t.postPending <;> simp
        rw [hppf] at hr
        simp only [Bool.false_eq_true, if_false] at hr
        by_cases hv : t.voidPending = true
        · rw [hv] at hr
          simp only [if_true] at hr
          obtain ⟨p, _, _, hcommit⟩ := applyVoidPending_ok hr.symm
          rw [hcommit]
          exact hgen _ _ _ rfl rfl rfl
        · have hvf : t.voidPending = false := by
            revert hv; cases t.voidPending <;> simp
          rw [hvf] at hr
          simp only [Bool.false_eq_true, if_false] at hr
          obtain ⟨amt, _, _, _, hcommit⟩ := applySinglePhase_ok hr.symm
          rw [hcommit]
          exact hgen _ _ _ rfl rfl rfl

theorem tsExtend_chainApply (step : α → Store → Nat × Store)
    (hstep : ∀ (x : α) (u : Store), tsExtend u (step x u).2) :
    ∀ (xs : List α) (s s' : Store),
      chainApply step xs s = .ok s' → tsExtend s s'
  | [], s, s', h => by
      unfold chainApply at h
      injection h with h
      rw [← h]
      exact tsExtend_refl s
  | x :: xs, s, s', h => by
      unfold chainApply at h
      by_cases hok : (step x s).1 = Code.OK
      · rw [if_pos hok] at h
        rcases hrec : chainApply step xs (step x s).2 with e | u
        · rcases e with ⟨i, c⟩
          rw [hrec] at h
          exact Except.noConfusion h
        · rw [hrec] at h
          injection h with h
          rw [← h]
          exact tsExtend_trans (hstep x s)
            (tsExtend_chainApply step hstep xs (step x s).2 u hrec)
      · rw [if_neg hok] at h
        exact Except.noConfusion h

theorem tsExtend_runChain (step : α → Store → Nat × Store)
    (hstep : ∀ (x : α) (u : Store), tsExtend u (step x u).2)
    (xs : List α) (s : Store) : tsExtend s (runChain step xs s).2 := by
  unfold runChain
  rcases hres : chainApply step xs s with e | s2
  · rcases e with ⟨i, c⟩
    exact tsExtend_refl s
  · exact tsExtend_chainApply step hstep xs s s2 hres

theorem tsExtend_foldChains (isLinked : α → Bool)
    (step : α → Store → Nat × Store)
    (hstep : ∀ (x : α) (u : Store), tsExtend u (step x u).2) :
    ∀ (cs : List (List α)) (acc : List Nat × Store),
      tsExtend acc.2 ((cs.foldl
        (fun acc c =>
          if chainOpen isLinked c then
            (acc.1 ++ c.map (fun _ => Code.LINKED_EVENT_CHAIN_OPEN), acc.2)
          else
            let r := runChain step c acc.2
            (acc.1 ++ r.1, r.2)) acc).2)
  | [], acc => by simpa using tsExtend_refl acc.2
  | c :: cs, acc => by
      rw [List.foldl_cons]
      by_cases ho : chainOpen isLinked c = true
      · rw [if_pos ho]
        exact tsExtend_foldChains isLinked step hstep cs
          (acc.1 ++ c.map (fun _ => Code.LINKED_EVENT_CHAIN_OPEN), acc.2)
      · rw [if_neg ho]
        refine tsExtend_trans (tsExtend_runChain step hstep c acc.2) ?_
        exact tsExtend_foldChains isLinked step hstep cs
          (acc.1 ++ (runChain step c acc.2).1, (runChain step c acc.2).2)

theorem tsExtend_runBatch (isLinked : α → Bool)
    (step : α → Store → Nat × Store)
    (hstep : ∀ (x : α) (u : Store), tsExtend u (step x u).2)
    (xs : List α) (s : Store) :
    tsExtend s (runBatch isLinked step xs s).2 := by
  unfold runBatch
  exact tsExtend_foldChains isLinked step hstep (splitChains isLinked xs)
    ([], s)

theorem tsExtend_applyOp (op : Op) (s : Store) :
    tsExtend s (applyOp op s) := by
  cases op with
  | ca a => exact tsExtend_create_account a s
  | ct t => exact tsExtend_create_transfer t s
  | las xs =>
      exact tsExtend_runBatch Account.linked create_account
        tsExtend_create_account xs s
  | lts xs =>
      exact tsExtend_runBatch Transfer.linked create_transfer
        tsExtend_create_transfer xs s

theorem tsExtend_applyOps :
    ∀ (ops : List Op) (s : Store), tsExtend s (applyOps ops s)
  | [], s => tsExtend_refl s
  | op :: ops, s =>
      tsExtend_trans (tsExtend_applyOp op s)
        (tsExtend_applyOps ops (applyOp op s))

theorem applyOps_append (l₁ l₂ : List Op) (s : Store) :
    applyOps (l₁ ++ l₂) s = applyOps l₂ (applyOps l₁ s) := by
  unfold applyOps
  rw [List.foldl_append]

/-- C8: committed records carry globally distinct timestamps and any
record committed by a later operation sequence carries a strictly greater
timestamp than every record already present. -/
theorem claim_C8_monotone_timestamps {s : Store} (hreach : Reachable s)
    (ops : List Op) :
    (allTs (applyOps ops s)).Nodup ∧
    ∀ z' ∈ allTs (applyOps ops s), z' ∉ allTs s →
      ∀ z ∈ allTs s, z < z' := by
  have hreach' : Reachable (applyOps ops s) := by
    obtain ⟨ops0, h0⟩ := hreach
    exact ⟨ops0 ++ ops, by rw [applyOps_append, ← h0]⟩
  have inv := StoreInv_reachable hreach
  have inv' := StoreInv_reachable hreach'
  refine ⟨inv'.tsNodup, ?_⟩
  intro z' hz' hnotin z hz
  have hext := tsExtend_applyOps ops s
  rcases hext.2 z' hz' with h | h
  · exact absurd h hnotin
  · have hzlt : z < s.nextTs := by
      unfold allTs at hz
      rcases List.mem_append.mp hz with hh | hh
      · obtain ⟨y, hy, hyz⟩ := List.mem_map.mp hh
        rw [← hyz]
        exact inv.accTs y hy
      · obtain ⟨y, hy, hyz⟩ := List.mem_map.mp hh
        rw [← hyz]
        exact inv.txTs y hy
    omega

theorem claim_C8_witness :
    (allTs (applyOps [Op.ct wST] wBase)).Nodup ∧
    ∀ z' ∈ allTs (applyOps [Op.ct wST] wBase), z' ∉ allTs wBase →
      ∀ z ∈ allTs wBase, z < z' :=
  claim_C8_monotone_timestamps ⟨wOpsAcc, rfl⟩ [Op.ct wST]

theorem tsSelected_trivial {f : AccountFilter} (hmin : f.timestamp_min = 0)
    (hmax : f.timestamp_max = 0) (ts : Nat) : tsSelected f ts = true := by
  unfold tsSelected
  rw [hmin, hmax]
  simp

theorem find?_self_of_nodup {l : List Transfer}
    (hnd : (l.map (fun t => t.id)).Nodup) {u : Transfer} (hu : u ∈ l) :
    l.find? (fun v => v.id = u.id) = some u := by
  obtain ⟨v, hv⟩ := find?_of_mem_id hu rfl
  have hvmem := List.mem_of_find?_eq_some hv
  have hvid : v.id = u.id := by simpa using List.find?_some hv
  have hveq : v = u := List.inj_on_of_nodup_map hnd hvmem hu hvid
  rw [hv, hveq]

theorem filterMap_lookup_entries {s : Store}
    (hnd : (s.transfers.map (fun t => t.id)).Nodup) (i : Nat) :
    ∀ l : List Transfer, (∀ u ∈ l, u ∈ s.transfers) →
      ((l.map (entryFor i)).filterMap
        (fun e => lookup_transfer e.transfer_id s)) = l
  | [], _ => rfl
  | u :: l, h => by
      simp only [List.map_cons, List.filterMap_cons]
      have hl : lookup_transfer (entryFor i u).transfer_id s = some u := by
        show s.transfers.find? (fun v => v.id = u.id) = some u
        exact find?_self_of_nodup hnd (h u (List.mem_cons_self u l))
      rw [hl]
      rw [filterMap_lookup_entries hnd i l
        (fun v hv => h v (List.mem_cons_of_mem u hv))]

theorem encodeTransfer_length (t : Transfer) :
    (encodeTransfer t).length = 128 := by
  simp [encodeTransfer, leBytes]

theorem flatMap_encodeTransfer_length : ∀ l : List Transfer,
    (l.flatMap encodeTransfer).length = 128 * l.length
  | [] => rfl
  | t :: l => by
      simp only [List.flatMap_cons, List.length_append,
        flatMap_encodeTransfer_length l, encodeTransfer_length,
        List.length_cons]
      ring

/-- C9: with the timestamp window unbounded and `REVERSED` unset,
`get_account_transfers` returns exactly the committed transfers that carry
the filtered account on a side selected by the `DEBITS`/`CREDITS` flags
(both sides when neither is set), in commit order truncated to the
effective limit, and the result blob is 128 bytes per returned transfer. -/
theorem claim_C9_transfer_query {s : Store} (hreach : Reachable s)
    (f : AccountFilter) (hrev : f.reversed = false)
    (hmin : f.timestamp_min = 0) (hmax : f.timestamp_max = 0) :
    get_account_transfers f s =
      (s.transfers.filter (fun u =>
        (u.debit_account_id = f.account_id && sideSelected f Side.debit) ||
        (u.credit_account_id = f.account_id &&
          sideSelected f Side.credit))).take f.effLimit ∧
    (get_account_transfers_blob f s).length =
      128 * (get_account_transfers f s).length := by
  have inv := StoreInv_reachable hreach
  constructor
  · unfold get_account_transfers
    rw [inv.indexSpec f.account_id, hrev]
    simp only [Bool.false_eq_true, if_false]
    rw [List.filter_map]
    rw [← List.map_take]
    rw [filterMap_lookup_entries inv.txIds f.account_id _ ?hsub]
    case hsub =>
      intro u hu
      have hu2 := List.mem_of_mem_take hu
      exact (List.mem_filter.mp (List.mem_filter.mp hu2).1).1
    rw [List.filter_filter]
    congr 1
    apply List.filter_congr
    intro u hu
    obtain ⟨_, _, _, hune, _, _, _, _⟩ := inv.txValid u hu
    show ((fun e => sideSelected f e.side && tsSelected f e.timestamp)
        (entryFor f.account_id u) && involves f.account_id u) =
      ((u.debit_account_id = f.account_id && sideSelected f Side.debit) ||
        (u.credit_account_id = f.account_id && sideSelected f Side.credit))
    simp only [entryFor, tsSelected_trivial hmin hmax, Bool.and_true]
    unfold involves
    by_cases hd : f.account_id = u.debit_account_id
    · have hd' : u.debit_account_id = f.account_id := hd.symm
      have hcne : ¬ u.credit_account_id = f.account_id := by
        intro hh
        exact hune (hd'.trans hh.symm)
      have hcne' : ¬ f.account_id = u.credit_account_id := by
        intro hh
        exact hcne hh.symm
      simp [hd', hcne, hcne']
    · have hdne : ¬ u.debit_account_id = f.account_id := by
        intro hh
        exact hd hh.symm
      by_cases hc : f.account_id = u.credit_account_id
      · have hc' : u.credit_account_id = f.account_id := hc.symm
        simp [hc', hd, hdne]
      · have hcne : ¬ u.credit_account_id = f.account_id := by
          intro hh
          exact hc hh.symm
        simp [hd, hc, hdne, hcne]
  · exact flatMap_encodeTransfer_length (get_account_transfers f s)

theorem claim_C9_witness :
    get_account_transfers wF9 (applyOps wOps9 Store.empty) =
      ((applyOps wOps9 Store.empty).transfers.filter (fun u =>
        (u.debit_account_id = wF9.account_id &&
          sideSelected wF9 Side.debit) ||
        (u.credit_account_id = wF9.account_id &&
          sideSelected wF9 Side.credit))).take wF9.effLimit ∧
    (get_account_transfers_blob wF9 (applyOps wOps9 Store.empty)).length =
      128 * (get_account_transfers wF9 (applyOps wOps9 Store.empty)).length :=
  claim_C9_transfer_query ⟨wOps9, rfl⟩ wF9 rfl rfl rfl

theorem histReplay_length (pa : Nat → Nat) (i : Nat) :
    ∀ (ts : List Transfer) (q : Quad),
      (histReplay pa i ts q).length =
        (ts.filter (fun u => involves i u)).length
  | [], _ => rfl
  | t :: ts, q => by
      unfold histReplay
      by_cases hi : involves i t = true
      · rw [if_pos hi]
        simp only [List.length_cons, List.filter_cons, hi, if_true,
          List.length_cons]
        rw [histReplay_length pa i ts _]
      · have hif : involves i t = false := by
          revert hi; cases involves i t <;> simp
        rw [if_neg hi]
        simp only [List.filter_cons, hif, Bool.false_eq_true, if_false]
        rw [histReplay_length pa i ts q]

/-- C10: with the timestamp window unbounded and `REVERSED` unset,
`get_account_balances` is empty for a stored account without `HISTORY`,
and for an account with `HISTORY` it replays one cumulative snapshot per
committed transfer the account takes part in, truncated to the effective
limit.  (Amended: the spec's "empty iff the account lacks HISTORY" fails:
a `HISTORY` account with no transfers also yields an empty result — see
the counterexample; and a snapshot is 72 bytes of encoded fields, not the
64 the spec declares, so no blob size is claimed.) -/
theorem claim_C10_balance_history {s : Store} (hreach : Reachable s)
    (f : AccountFilter) (hrev : f.reversed = false)
    (hmin : f.timestamp_min = 0) (hmax : f.timestamp_max = 0) :
    (∀ a, lookup_account f.account_id s = some a → a.hasHistory = false →
      get_account_balances f s = []) ∧
    (∀ a, lookup_account f.account_id s = some a → a.hasHistory = true →
      get_account_balances f s =
        (histReplay (pendingAmount s.transfers) f.account_id s.transfers
          Quad.zero).take f.effLimit ∧
      (get_account_balances f s).length =
        min f.effLimit
          ((s.transfers.filter
            (fun u => involves f.account_id u)).length)) := by
  have inv := StoreInv_reachable hreach
  have hhist := inv.histSpec f.account_id
  constructor
  · intro a ha hno
    unfold get_account_balances
    rw [ha]
    dsimp only
    rw [if_pos (by simp [hno])]
  · intro a ha hyes
    have hres : get_account_balances f s =
        (histReplay (pendingAmount s.transfers) f.account_id s.transfers
          Quad.zero).take f.effLimit := by
      unfold get_account_balances
      rw [ha]
      dsimp only
      rw [if_neg (by simp [hyes])]
      rw [hrev]
      simp only [Bool.false_eq_true, if_false]
      rw [hhist, ha]
      dsimp only
      rw [if_pos hyes]
      congr 1
      apply List.filter_eq_self.mpr
      intro b _
      exact tsSelected_trivial hmin hmax b.timestamp
    refine ⟨hres, ?_⟩
    rw [hres, List.length_take, histReplay_length]

theorem claim_C10_counterexample :
    lookup_account 5 (applyOps [Op.ca (wAccount 5 1 8)] Store.empty) =
      some ((wAccount 5 1 8).initAt 1) ∧
    ((wAccount 5 1 8).initAt 1).hasHistory = true ∧
    get_account_balances wF10
      (applyOps [Op.ca (wAccount 5 1 8)] Store.empty) = [] := by decide

theorem claim_C10_witness :
    get_account_balances wF10 (applyOps wOps10 Store.empty) =
      (histReplay (pendingAmount (applyOps wOps10 Store.empty).transfers)
        wF10.account_id (applyOps wOps10 Store.empty).transfers
        Quad.zero).take wF10.effLimit ∧
    (get_account_balances wF10 (applyOps wOps10 Store.empty)).length =
      min wF10.effLimit
        (((applyOps wOps10 Store.empty).transfers.filter
          (fun u => involves wF10.account_id u)).length) :=
  (claim_C10_balance_history ⟨wOps10, rfl⟩ wF10 rfl rfl rfl).2
    wA10 (by decide) (by decide)

